import Mathlib

/-!
Shallow embedding of the structured naming engine of PyJalLib
(`pyjallib/namePart.py` and `pyjallib/naming.py`).

Python strings are modelled as `List Char`; operations that can raise a
Python exception are modelled in `Except PyErr`.
-/

namespace PyJalLib

/-- Python strings are modelled as lists of characters. -/
abbrev PyStr := List Char

/-- The Python exceptions the embedded code can raise. -/
inductive PyErr where
  | typeError
  | valueError
  | attributeError
  | indexError
  deriving DecidableEq, Repr

instance {ε α : Type} [DecidableEq ε] [DecidableEq α] : DecidableEq (Except ε α) := fun a b =>
  match a, b with
  | .ok x, .ok y =>
    if h : x = y then .isTrue (congrArg Except.ok h)
    else .isFalse (fun hh => h (Except.ok.inj hh))
  | .ok _, .error _ => .isFalse (fun hh => Except.noConfusion hh)
  | .error _, .ok _ => .isFalse (fun hh => Except.noConfusion hh)
  | .error e, .error f =>
    if h : e = f then .isTrue (congrArg Except.error h)
    else .isFalse (fun hh => h (Except.error.inj hh))

/-- Python `str.isdigit`: non-empty and all characters decimal digits. -/
def pyIsdigit (s : PyStr) : Bool := !s.isEmpty && s.all Char.isDigit

/-- Numeric value of a decimal digit character. -/
def digitVal (c : Char) : Nat := c.toNat - 48

/-- Python `int` on a string of decimal digits. -/
def charsToNat (s : PyStr) : Nat := s.foldl (fun a c => 10 * a + digitVal c) 0

/-- Decimal digits of `n`, most significant first (fuel-based recursion on `n/10`). -/
def natDigitsAux : Nat → Nat → PyStr
  | 0, _ => []
  | fuel + 1, n =>
    if n < 10 then [Char.ofNat (48 + n)]
    else natDigitsAux fuel (n / 10) ++ [Char.ofNat (48 + n % 10)]

/-- Decimal representation of a natural number. -/
def natToChars (n : Nat) : PyStr := natDigitsAux (n + 1) n

/-- Python format `{m:0{w}d}` for a natural number. -/
def zeroFill (w : Nat) (m : Nat) : PyStr :=
  let ds := natToChars m
  List.replicate (w - ds.length) '0' ++ ds

/-- Python format `{n:0{w}d}` for an integer (a sign counts toward the width). -/
def pyFormatInt (w : Nat) (n : Int) : PyStr :=
  if n < 0 then '-' :: zeroFill (w - 1) n.natAbs else zeroFill w n.toNat

/-- Python `list.index`, with `none` where Python raises `ValueError`. -/
def listIndex {α : Type} [DecidableEq α] (x : α) : List α → Option Nat
  | [] => none
  | y :: ys => if y = x then some 0 else (listIndex x ys).map (· + 1)

/-- Resolve a Python sequence index (a negative index counts from the end). -/
def pyResolveIdx (len : Nat) (i : Int) : Int := if i < 0 then i + len else i

/-- Python `seq[i]`, raising `IndexError` when out of range. -/
def pyGetItem {α : Type} (l : List α) (i : Int) : Except PyErr α :=
  let r := pyResolveIdx l.length i
  if h : 0 ≤ r ∧ r.toNat < l.length then .ok (l.get ⟨r.toNat, h.2⟩) else .error .indexError

/-- Python `seq[i] = v`, raising `IndexError` when out of range. -/
def pySetItem {α : Type} (l : List α) (i : Int) (v : α) : Except PyErr (List α) :=
  let r := pyResolveIdx l.length i
  if 0 ≤ r ∧ r.toNat < l.length then .ok (l.set r.toNat v) else .error .indexError

/-- `NamePartType` (source constructor names: PREFIX, SUFFIX, REALNAME, INDEX,
UNDEFINED). -/
inductive NamePartType where
  | prefixType
  | suffixType
  | realnameType
  | indexType
  | undefinedType
  deriving DecidableEq, Repr

/-- The state of a `NamePart` object. The two description lists are omitted:
no operation verified here reads them. -/
structure NamePart where
  name : PyStr
  type : NamePartType
  predefinedValues : List PyStr
  weights : List Int
  isDirection : Bool
  deriving DecidableEq, Repr

/-- `NamePart._update_weights`. For `REALNAME`/`INDEX` it resets the weights to
`[]` and returns; every other type reaches `for i in num_values:` where
`num_values = len(self._predefinedValues)` is an `int`, and iterating over an
`int` raises `TypeError` (for every value of the length) before any weight is
appended. -/
def updateWeights (t : NamePartType) (values : List PyStr) : Except PyErr (List Int) :=
  match t, values with
  | .realnameType, _ | .indexType, _ => .ok []
  | _, _ => .error .typeError

/-- `NamePart.__init__`: `_initialize_type_defaults` clears the predefined
values for `INDEX`/`REALNAME`, then `_update_weights` runs (and raises for the
remaining types, see `updateWeights`). -/
def mkNamePart (nm : PyStr) (t : NamePartType) (values : List PyStr) (isDir : Bool) :
    Except PyErr NamePart :=
  let values' : List PyStr :=
    match t with
    | .indexType | .realnameType => []
    | _ => values
  match updateWeights t values' with
  | .ok ws => .ok ⟨nm, t, values', ws, isDir⟩
  | .error e => .error e

/-- `NamePart.add_predefined_value` (the updated part is returned on success). -/
def addPredefinedValue (p : NamePart) (v : PyStr) : Except PyErr (Bool × NamePart) :=
  match p.type with
  | .realnameType | .indexType => .ok (false, p)
  | _ =>
    if p.predefinedValues.contains v then .ok (false, p)
    else
      let values' := p.predefinedValues ++ [v]
      match updateWeights p.type values' with
      | .ok ws => .ok (true, { p with predefinedValues := values', weights := ws })
      | .error e => .error e

/-- `NamePart.validate_value`. -/
def validateValue (p : NamePart) (v : PyStr) : Bool :=
  if p.type = .indexType then pyIsdigit v
  else if (p.type = .prefixType || p.type = .suffixType) && !p.predefinedValues.isEmpty then
    p.predefinedValues.contains v
  else if p.type = .realnameType then true   -- isinstance(inValue, str)
  else true

/-- `NamePart.get_value_by_weight`: `self._weights.index(inRank)` raises
`ValueError` when the weight is absent, so the `foundIndex >= 0` test after it
never sees a failed lookup. -/
def getValueByWeight (p : NamePart) (rank : Int) : Except PyErr PyStr :=
  if p.predefinedValues.length != p.weights.length || p.predefinedValues.length == 0 then .ok []
  else
    match listIndex rank p.weights with
    | none => .error .valueError
    | some i => .ok (p.predefinedValues.getD i [])

/-- One step of the `get_most_different_weight_value` loop; the accumulator is
`(maxDiff, maxDiffValue)`, the element is `(i, predValue)`. -/
def mostDiffStep (v : PyStr) (cur : Int) (weights : List Int)
    (acc : Int × PyStr) (iv : Nat × PyStr) : Int × PyStr :=
  if iv.2 = v then acc
  else
    let predWeight := if iv.1 < weights.length then weights.getD iv.1 0 else 0
    let diff := |cur - predWeight|
    if diff > acc.1 then (diff, iv.2) else acc

/-- `NamePart.get_most_different_weight_value`. The `self._weights[index]` read
is guarded by the equal-length check, so `getD` cannot actually default. -/
def getMostDifferentWeightValue (p : NamePart) (v : PyStr) : PyStr :=
  if p.predefinedValues.length != p.weights.length || p.predefinedValues.length == 0 then []
  else if !p.predefinedValues.contains v then []
  else
    let idx := (listIndex v p.predefinedValues).getD 0
    let cur := p.weights.getD idx 0
    (p.predefinedValues.enum.foldl (mostDiffStep v cur p.weights) (-1, [])).2

/-- `Naming._get_filtering_char`. -/
def getFilteringChar (s : PyStr) : PyStr :=
  if s.contains ' ' then [' '] else if s.contains '_' then ['_'] else []

/-- Python `str.split(c)` for a one-character separator (keeps empty pieces). -/
def splitOnChar (c : Char) : PyStr → List PyStr
  | [] => [[]]
  | x :: xs =>
    match splitOnChar c xs with
    | [] => [[]]
    | h :: t => if x = c then [] :: h :: t else (x :: h) :: t

/-- `Naming._filter_by_filtering_char`: split on the detected delimiter and drop
the empty pieces. -/
def filterByFilteringChar (s : PyStr) : List PyStr :=
  match getFilteringChar s with
  | [] => [s]
  | c :: _ => (splitOnChar c s).filter (fun p => !p.isEmpty)

/-- Loop of `Naming._filter_by_upper_case`, carrying the current segment. -/
def filterByUpperCaseAux (cur : PyStr) : PyStr → List PyStr
  | [] => if cur.isEmpty then [] else [cur]
  | ch :: rest =>
    if ch.isUpper then cur :: filterByUpperCaseAux [ch] rest
    else filterByUpperCaseAux (cur ++ [ch]) rest

/-- `Naming._filter_by_upper_case`. -/
def filterByUpperCase : PyStr → List PyStr
  | [] => []
  | ch :: rest => filterByUpperCaseAux [ch] rest

/-- `Naming._has_digit`. -/
def hasDigit (s : PyStr) : Bool := s.any Char.isDigit

/-- `Naming._split_into_string_and_digit`: the regex `^(.*?)(\d*)$` captures the
maximal run of trailing digits as its second group. -/
def splitStringAndDigit (s : PyStr) : PyStr × PyStr :=
  let d := (s.reverse.takeWhile Char.isDigit).reverse
  (s.take (s.length - d.length), d)

/-- `Naming._split_to_array`. -/
def splitToArray (s : PyStr) : List PyStr :=
  match getFilteringChar s with
  | [] =>
    (filterByUpperCase s).foldl (fun acc item =>
      if hasDigit item then
        let sd := splitStringAndDigit item
        acc ++ (if sd.1.isEmpty then [] else [sd.1]) ++ (if sd.2.isEmpty then [] else [sd.2])
      else acc ++ [item]) []
  | _ => filterByFilteringChar s

/-- `Naming._remove_empty_string_in_array`. -/
def removeEmptyStringInArray (arr : List PyStr) : List PyStr :=
  arr.filter (fun p => !p.isEmpty)

/-- `Naming._combine`. -/
def combineArr (arr : List PyStr) (filChar : PyStr) : PyStr :=
  let refined := removeEmptyStringInArray arr
  if refined.isEmpty then []
  else if refined.length == 1 then refined.headD []
  else List.intercalate filChar refined

/-- The state of a `Naming` object. -/
structure Naming where
  nameParts : List NamePart
  paddingNum : Nat
  deriving Repr

/-- The literal part name `"Index"`. -/
def strIndexName : PyStr := ['I', 'n', 'd', 'e', 'x']

/-- The literal part name `"RealName"`. -/
def strRealNameName : PyStr := ['R', 'e', 'a', 'l', 'N', 'a', 'm', 'e']

/-- `Naming.get_name_part` (first part with the given name, else `None`). -/
def getNamePart (nm : Naming) (partName : PyStr) : Option NamePart :=
  nm.nameParts.find? (fun part => part.name == partName)

/-- Loop of `Naming.get_name_part_index`. -/
def getNamePartIdxAux (partName : PyStr) : List NamePart → Nat → Int
  | [], _ => -1
  | q :: rest, i => if q.name == partName then (i : Int) else getNamePartIdxAux partName rest (i + 1)

/-- `Naming.get_name_part_index` (`-1` when no part has the given name). -/
def getNamePartIdx (nm : Naming) (partName : PyStr) : Int :=
  getNamePartIdxAux partName nm.nameParts 0

/-- A `for`/`break` scan: the first element satisfying `pred`, else `""`. -/
def scanFirst (pred : PyStr → Bool) : List PyStr → PyStr
  | [] => []
  | x :: xs => if pred x then x else scanFirst pred xs

/-- `Naming.pick_name`. The `if not partType` test is skipped (enum members are
always truthy); the three type blocks are mutually exclusive and rendered as a
`match`; the right-to-left loops `range(len-1, -1, -1)` scan the reversed token
list. -/
def pickName (nm : Naming) (partName : PyStr) (s : PyStr) : PyStr :=
  let nameArray := splitToArray s
  match getNamePart nm partName with
  | none => []
  | some part =>
    let partValues := part.predefinedValues
    if part.type != .indexType && part.type != .realnameType && partValues.isEmpty then []
    else
      match part.type with
      | .prefixType => scanFirst (fun item => partValues.contains item) nameArray
      | .suffixType => scanFirst (fun item => partValues.contains item) nameArray.reverse
      | .indexType =>
        if getNamePartIdx nm strIndexName > getNamePartIdx nm strRealNameName then
          scanFirst pyIsdigit nameArray.reverse
        else
          scanFirst pyIsdigit nameArray
      | _ => []

/-- Erase each of `items` from `arr` when present
(`if item in arr: arr.remove(item)`). -/
def removeEach (arr : List PyStr) (items : List PyStr) : List PyStr :=
  items.foldl (fun acc item => if acc.contains item then acc.erase item else acc) arr

/-- `Naming.get_name`. `self.get_name_part(...).get_type()` raises
`AttributeError` when no part has the given name, and `nameArray.index(...)`
raises `ValueError` when the picked token is absent from the token list (both
lookups are modelled; a found part always has `partIndex ≥ 0`, so the Python
slices `[:partIndex]` and `[partIndex+1:]` are `take`/`drop`). -/
def getName (nm : Naming) (partName : PyStr) (s : PyStr) : Except PyErr PyStr :=
  let nameArray := splitToArray s
  match getNamePart nm partName with
  | none => .error .attributeError
  | some part =>
    let foundName := pickName nm partName s
    if foundName.isEmpty then .ok []
    else
      let partIndex := getNamePartIdx nm partName
      match listIndex foundName nameArray with
      | none => .error .valueError
      | some foundIndex =>
        match part.type with
        | .prefixType =>
          let prevNameParts := nm.nameParts.take partIndex.toNat
          let prevNames := prevNameParts.map (fun q => pickName nm q.name s)
          let remaining := removeEach (nameArray.take foundIndex) prevNames
          if remaining.isEmpty then .ok foundName else .ok []
        | .suffixType =>
          let nextNameParts := nm.nameParts.drop (partIndex.toNat + 1)
          let nextNames := nextNameParts.map (fun q => pickName nm q.name s)
          let remaining := removeEach (nameArray.drop (foundIndex + 1)) nextNames
          if remaining.isEmpty then .ok foundName else .ok []
        | .indexType => .ok (pickName nm partName s)
        | _ => .ok []

/-- `Naming.get_RealName`. -/
def getRealName (nm : Naming) (s : PyStr) : Except PyErr PyStr := do
  let filChar := getFilteringChar s
  let nameArray := splitToArray s
  let nonRealNameArray ← (nm.nameParts.filter (fun part => part.type != .realnameType)).mapM
    (fun part => getName nm part.name s)
  .ok (combineArr (removeEach nameArray nonRealNameArray) filChar)

/-- Index of the last part named `partName` (the source records `realNameIndex`
on every hit, so a later hit overwrites an earlier one). -/
def lastIdxOfName (partName : PyStr) (parts : List NamePart) : Option Nat :=
  ((parts.enum.filter (fun ip => ip.2.name == partName)).map (fun ip => ip.1)).getLast?

/-- `Naming.convert_name_to_array`: parts named "RealName" are skipped in the
first pass (their slot stays `""`), then the slot of the last such part is
filled by `get_RealName`. -/
def convertNameToArray (nm : Naming) (s : PyStr) : Except PyErr (List PyStr) := do
  let arr ← nm.nameParts.mapM (fun part =>
    if part.name == strRealNameName then Except.ok []
    else getName nm part.name s)
  match lastIdxOfName strRealNameName nm.nameParts with
  | none => .ok arr
  | some ri => do
    let rn ← getRealName nm s
    .ok (arr.set ri rn)

/-- `Naming.convert_to_dictionary` (an insertion-ordered dict rendered as an
association list; the schemas verified here have pairwise distinct part
names). -/
def convertToDictionary (nm : Naming) (s : PyStr) : Except PyErr (List (PyStr × PyStr)) := do
  let entries ← (nm.nameParts.filter (fun part => part.name != strRealNameName)).mapM
    (fun part => do
      let v ← getName nm part.name s
      Except.ok (part.name, v))
  let rn ← getRealName nm s
  .ok (entries ++ [(strRealNameName, rn)])

/-- The argument of `convert_digit_into_padding_string` (`Union[int, str]`). -/
inductive IntOrStr where
  | int (n : Int)
  | str (s : PyStr)

/-- `Naming.convert_digit_into_padding_string`. -/
def convertDigitIntoPaddingString (nm : Naming) (digit : IntOrStr) (padOpt : Option Nat) : PyStr :=
  let padNum := padOpt.getD nm.paddingNum
  let digitNum : Int :=
    match digit with
    | .int n => n
    | .str s => if pyIsdigit s then (charsToNat s : Int) else 0
  pyFormatInt padNum digitNum

/-- `Naming.set_index_padding_num`. -/
def setIndexPaddingNum (nm : Naming) (s : PyStr) (padOpt : Option Nat) : Except PyErr PyStr := do
  let filChar := getFilteringChar s
  let nameArray ← convertNameToArray nm s
  let indexIndex := getNamePartIdx nm strIndexName
  let indexStr ← getName nm strIndexName s
  if indexStr.isEmpty then
    .ok (combineArr nameArray filChar)
  else do
    let padded := convertDigitIntoPaddingString nm (.str indexStr) padOpt
    let nameArray' ← pySetItem nameArray indexIndex padded
    .ok (combineArr nameArray' filChar)

/-- `Naming.combine`. -/
def combine (nm : Naming) (partsDict : List (PyStr × PyStr)) (filChar : PyStr) :
    Except PyErr PyStr :=
  let combinedNameArray := nm.nameParts.map (fun part =>
    match partsDict.lookup part.name with
    | some v => v
    | none => [])
  setIndexPaddingNum nm (combineArr combinedNameArray filChar) none

/-- Python `int(...)` as applied to an index token; the tokens it receives are
digit runs, so signed or padded forms cannot occur. -/
def pyParseInt (s : PyStr) : Option Int :=
  if pyIsdigit s then some ((charsToNat s : Nat) : Int) else none

/-- `Naming.increase_index`. -/
def increaseIndex (nm : Naming) (s : PyStr) (amount : Int) : Except PyErr PyStr := do
  let filChar := getFilteringChar s
  let nameArray ← convertNameToArray nm s
  let indexIndex := getNamePartIdx nm strIndexName
  if indexIndex ≥ 0 then do
    let slot ← pyGetItem nameArray indexIndex
    let numPad : Int × Nat :=
      if slot.isEmpty then (-1, nm.paddingNum)
      else
        match pyParseInt slot with
        | some v => (v, slot.length)
        | none => (-99999, nm.paddingNum)   -- `except ValueError: pass`
    let indexNum := numPad.1 + amount
    let indexNum := if indexNum < 0 then 0 else indexNum
    let indexStr := pyFormatInt numPad.2 indexNum
    let nameArray' ← pySetItem nameArray indexIndex indexStr
    setIndexPaddingNum nm (combineArr nameArray' filChar) none
  else
    .ok s

/-- `Naming.get_index_as_digit` (`none` models the `False` return). -/
def getIndexAsDigit (nm : Naming) (s : PyStr) : Except PyErr (Option Int) := do
  let indexStr ← getName nm strIndexName s
  if indexStr.isEmpty then .ok none
  else
    match pyParseInt indexStr with
    | some v => .ok (some v)
    | none => .ok none

/-- Stable insert by the second component: the new element is placed before the
first element with a key greater than or equal to its own. -/
def stableInsert (x : Nat × Int) : List (Nat × Int) → List (Nat × Int)
  | [] => [x]
  | y :: ys => if x.2 ≤ y.2 then x :: y :: ys else y :: stableInsert x ys

/-- Stable sort by the second component (models Python's stable
`list.sort(key=...)`). -/
def stableSortByKey : List (Nat × Int) → List (Nat × Int)
  | [] => []
  | x :: xs => stableInsert x (stableSortByKey xs)

/-- `Naming.sort_by_index`: decorate each name with its original position and
parsed index (`0` when missing), sort stably by the index, read the names
back (`names[struct.oriIndex]`, always in range). -/
def sortByIndex (nm : Naming) (names : List PyStr) : Except PyErr (List PyStr) :=
  if names.isEmpty then .ok []
  else do
    let structArray ← names.enum.mapM (fun iname => do
      let t ← getIndexAsDigit nm iname.2
      Except.ok (iname.1, match t with | none => (0 : Int) | some v => v))
    let sorted := stableSortByKey structArray
    .ok (sorted.map (fun st => names.getD st.1 []))

/-- `Naming.add_prefix_to_name_part`. A part name absent from the schema gives
`partIndex = -1`, which Python resolves to the last slot of the array. -/
def addPrefixToNamePart (nm : Naming) (partName s pre : PyStr) : Except PyErr PyStr :=
  if pre.isEmpty then .ok s
  else do
    let filChar := getFilteringChar s
    let nameArray ← convertNameToArray nm s
    let partIndex := getNamePartIdx nm partName
    let cur ← pyGetItem nameArray partIndex
    let nameArray' ← pySetItem nameArray partIndex (pre ++ cur)
    .ok (combineArr nameArray' filChar)

/-- `Naming.add_suffix_to_name_part` (same shape, value appended instead). -/
def addSuffixToNamePart (nm : Naming) (partName s suf : PyStr) : Except PyErr PyStr :=
  if suf.isEmpty then .ok s
  else do
    let filChar := getFilteringChar s
    let nameArray ← convertNameToArray nm s
    let partIndex := getNamePartIdx nm partName
    let cur ← pyGetItem nameArray partIndex
    let nameArray' ← pySetItem nameArray partIndex (cur ++ suf)
    .ok (combineArr nameArray' filChar)

/-- `Naming.replace_name_part`. -/
def replaceNamePart (nm : Naming) (partName s newName : PyStr) : Except PyErr PyStr := do
  let nameArray ← convertNameToArray nm s
  let partIndex := getNamePartIdx nm partName
  let nameArray' ←
    if partIndex ≥ 0 then pySetItem nameArray partIndex newName
    else Except.ok nameArray
  setIndexPaddingNum nm (combineArr nameArray' (getFilteringChar s)) none

/-- `Naming.remove_name_part`. -/
def removeNamePart (nm : Naming) (partName s : PyStr) : Except PyErr PyStr := do
  let nameArray ← convertNameToArray nm s
  let partIndex := getNamePartIdx nm partName
  let nameArray' ←
    if partIndex ≥ 0 then pySetItem nameArray partIndex []
    else Except.ok nameArray
  setIndexPaddingNum nm (combineArr nameArray' (getFilteringChar s)) none

/-- `Naming.gen_mirroring_name`. The guard
`partType != REALNAME or partType != INDEX` is a tautology and is kept as
written, so the substitution is attempted for every direction-flagged part. -/
def genMirroringName (nm : Naming) (s : PyStr) : Except PyErr PyStr := do
  let nameArray ← convertNameToArray nm s
  let nameArray' ← nm.nameParts.foldlM (fun arr part =>
    if (part.type != .realnameType || part.type != .indexType) && part.isDirection then do
      let partIndex := getNamePartIdx nm part.name
      let foundName ← getName nm part.name s
      let opositeName := getMostDifferentWeightValue part foundName
      if !opositeName.isEmpty && foundName != opositeName then
        pySetItem arr partIndex opositeName
      else
        Except.ok arr
    else
      Except.ok arr) nameArray
  .ok (combineArr nameArray' (getFilteringChar s))

/-- The literal part name `"Prefix"`. -/
def strPrefixName : PyStr := ['P','r','e','f','i','x']

/-- The literal part name `"Suffix"`. -/
def strSuffixName : PyStr := ['S','u','f','f','i','x']

/-- The predefined value `"Pr"`. -/
def strPr : PyStr := ['P','r']

/-- The predefined value `"Su"`. -/
def strSu : PyStr := ['S','u']

/-- The direction value `"L"`. -/
def strL : PyStr := ['L']

/-- The direction value `"R"`. -/
def strR : PyStr := ['R']

/-- The default `Prefix` part of `Naming.__init__` (values `["Pr"]`). The
weight list carried here is the documented `5, 10, …` sequence; the actual
construction raises (see `updateWeights` and claims C2/C3), and no operation
verified over this schema reads the weights. -/
def prefixPartDefault : NamePart :=
  ⟨strPrefixName, .prefixType, [strPr], [5], false⟩

/-- The default `RealName` part (REALNAME). -/
def realNamePartDefault : NamePart := ⟨strRealNameName, .realnameType, [], [], false⟩

/-- The default `Index` part (INDEX). -/
def indexPartDefault : NamePart := ⟨strIndexName, .indexType, [], [], false⟩

/-- The default `Suffix` part (values `["Su"]`); weights as for
`prefixPartDefault`. -/
def suffixPartDefault : NamePart :=
  ⟨strSuffixName, .suffixType, [strSu], [5], false⟩

/-- The default `Naming` schema (`Prefix, RealName, Index, Suffix`, padding 2). -/
def defaultNaming : Naming :=
  ⟨[prefixPartDefault, realNamePartDefault, indexPartDefault, suffixPartDefault], 2⟩

/-- A direction-flagged `Side` part whose values are exactly `["L","R"]`, with
the documented weights `5, 10`. -/
def sidePart : NamePart := ⟨['S','i','d','e'], .prefixType, [strL, strR], [5, 10], true⟩

/-- The spec §8 example schema `[Side(PREFIX:{L,R}), RealName, Index]`. -/
def sideNaming : Naming := ⟨[sidePart, realNamePartDefault, indexPartDefault], 2⟩

/-- A schema that has a part literally named `"Index"` (INDEX-typed) but no
part named `"RealName"` (its free-text part is named `"Name"`). -/
def noRealNameNaming : Naming :=
  ⟨[⟨strIndexName, .indexType, [], [], false⟩,
    ⟨['N','a','m','e'], .realnameType, [], [], false⟩], 2⟩

/-- A schema lacking both literal names `"Index"` and `"RealName"`: the
free-text part is named `"Name"` and the INDEX-typed part `"Num"`, placed
after it. -/
def numNaming : Naming :=
  ⟨[⟨['N','a','m','e'], .realnameType, [], [], false⟩,
    ⟨['N','u','m'], .indexType, [], [], false⟩], 2⟩

/-- The real-name component as a token list: absent when empty. -/
def realTok (r : PyStr) : List PyStr := if r.isEmpty then [] else [r]

/-- Token list of a canonical full name over `defaultNaming`:
prefix `"Pr"`, real name `r` (possibly omitted), index `i`, suffix `"Su"`. -/
def defTokens (r i : PyStr) : List PyStr := [strPr] ++ realTok r ++ [i, strSu]

/-- A canonical full name over `defaultNaming`, joined with `fc`. -/
def defName (fc : Char) (r i : PyStr) : PyStr := List.intercalate [fc] (defTokens r i)

/-- Token list of a canonical name over `sideNaming`. -/
def sideTokens (side r i : PyStr) : List PyStr := [side] ++ realTok r ++ [i]

/-- A canonical name over `sideNaming`, joined with `"_"`. -/
def sideName (side r i : PyStr) : PyStr := List.intercalate ['_'] (sideTokens side r i)

/-- The opposite direction value of a binary `L`/`R` pair. -/
def oppSide (side : PyStr) : PyStr := if side = strL then strR else strL

/-- The sort key `sort_by_index` derives from a name: the parsed index, `0`
when the index is missing or unparsable (or extraction fails). -/
def effIndexKey (nm : Naming) (name : PyStr) : Int :=
  match getIndexAsDigit nm name with
  | .ok (some v) => v
  | _ => 0

/-- The decorated, stably sorted intermediate list built by `sort_by_index`:
pairs of original position and effective index key. -/
def sortedIndexStructs (nm : Naming) (names : List PyStr) : List (Nat × Int) :=
  stableSortByKey (names.enum.map (fun p => (p.1, effIndexKey nm p.2)))

/-- Modelled from the spec: the weight sequence `_update_weights` is documented
to produce — "values are assigned weights starting at 5 and increasing by 5"
(`5*(i+1)` for the i-th declared value). The source loop itself raises, see
`updateWeights`. -/
def specUpdateWeights (values : List PyStr) : List Int :=
  (List.range values.length).map (fun i : Nat => ((5 * (i + 1) : Nat) : Int))

/-! ### General lemmas about the embedded primitives -/

theorem scanFirst_eq_find (pred : PyStr → Bool) (l : List PyStr) :
    scanFirst pred l = (l.find? pred).getD [] := by
  induction l with
  | nil => rfl
  | cons x xs ih =>
    by_cases h : pred x = true
    · simp [scanFirst, List.find?, h]
    · simp only [Bool.not_eq_true] at h
      simp [scanFirst, List.find?, h, ih]

theorem scanFirst_mem (pred : PyStr → Bool) (l : List PyStr)
    (h : scanFirst pred l ≠ []) : scanFirst pred l ∈ l := by
  induction l with
  | nil => simp [scanFirst] at h
  | cons x xs ih =>
    by_cases hx : pred x = true
    · simp [scanFirst, hx]
    · simp only [Bool.not_eq_true] at hx
      simp only [scanFirst, hx, Bool.false_eq_true, if_false] at h ⊢
      exact List.mem_cons_of_mem _ (ih h)

theorem scanFirst_pred (pred : PyStr → Bool) (l : List PyStr)
    (h : scanFirst pred l ≠ []) : pred (scanFirst pred l) = true := by
  induction l with
  | nil => simp [scanFirst] at h
  | cons x xs ih =>
    by_cases hx : pred x = true
    · simp [scanFirst, hx]
    · simp only [Bool.not_eq_true] at hx
      simp only [scanFirst, hx, Bool.false_eq_true, if_false] at h ⊢
      exact ih h

theorem listIndex_isSome {α : Type} [DecidableEq α] (x : α) (l : List α)
    (h : x ∈ l) : (listIndex x l).isSome = true := by
  induction l with
  | nil => simp at h
  | cons y ys ih =>
    by_cases hy : y = x
    · simp [listIndex, hy]
    · simp only [List.mem_cons] at h
      rcases h with h | h

      · exact absurd h.symm hy
      · simp only [listIndex, hy, if_false]
        rcases Option.isSome_iff_exists.mp (ih h) with ⟨k, hk⟩
        simp [hk]

theorem mapM_ok_of_forall {α β : Type} (f : α → Except PyErr β) (g : α → β) (l : List α)
    (h : ∀ a ∈ l, f a = .ok (g a)) : l.mapM f = .ok (l.map g) := by
  induction l with
  | nil => rfl
  | cons x xs ih =>
    have hx := h x (List.mem_cons_self x xs)
    have hxs := ih (fun a ha => h a (List.mem_cons_of_mem _ ha))
    simp only [List.mapM_cons, hx, hxs, List.map_cons]
    rfl

theorem mapM_ok_exists {α β : Type} (f : α → Except PyErr β) (l : List α)
    (h : ∀ a ∈ l, ∃ v, f a = .ok v) :
    ∃ out, l.mapM f = .ok out ∧ out.length = l.length := by
  induction l with
  | nil => exact ⟨[], rfl, rfl⟩
  | cons x xs ih =>
    obtain ⟨v, hv⟩ := h x (List.mem_cons_self x xs)
    obtain ⟨out, hout, hlen⟩ := ih (fun a ha => h a (List.mem_cons_of_mem _ ha))
    refine ⟨v :: out, ?_, by simp [hlen]⟩
    simp only [List.mapM_cons, hv, hout]
    rfl

/-! ### Lemmas about decimal formatting and parsing -/

theorem digitVal_char_ofNat (m : Nat) (h : m < 10) : digitVal (Char.ofNat (48 + m)) = m := by
  interval_cases m <;> decide

theorem isDigit_char_ofNat (m : Nat) (h : m < 10) : (Char.ofNat (48 + m)).isDigit = true := by
  interval_cases m <;> decide

theorem charsToNat_append_singleton (ds : PyStr) (c : Char) :
    charsToNat (ds ++ [c]) = 10 * charsToNat ds + digitVal c := by
  simp [charsToNat, List.foldl_append]

theorem natDigitsAux_spec (fuel : Nat) : ∀ n, n < fuel →
    charsToNat (natDigitsAux fuel n) = n
  ∧ natDigitsAux fuel n ≠ []
  ∧ (natDigitsAux fuel n).all Char.isDigit = true := by
  induction fuel with
  | zero => intro n hn; omega
  | succ fuel ih =>
    intro n hn
    by_cases h10 : n < 10
    · have e : natDigitsAux (fuel + 1) n = [Char.ofNat (48 + n)] := by
        simp [natDigitsAux, h10]
      refine ⟨?_, by simp [e], by simp [e, isDigit_char_ofNat n h10]⟩
      rw [e]
      have : ([] : PyStr) ++ [Char.ofNat (48 + n)] = [Char.ofNat (48 + n)] := rfl
      rw [← this, charsToNat_append_singleton, digitVal_char_ofNat n h10]
      simp [charsToNat]
    · have e : natDigitsAux (fuel + 1) n =
          natDigitsAux fuel (n / 10) ++ [Char.ofNat (48 + n % 10)] := by
        simp [natDigitsAux, h10]
      have hdiv : n / 10 < fuel := by omega
      obtain ⟨ihv, ihne, ihall⟩ := ih (n / 10) hdiv
      refine ⟨?_, by simp [e], ?_⟩
      · rw [e, charsToNat_append_singleton, ihv, digitVal_char_ofNat _ (Nat.mod_lt n (by omega))]
        omega
      · rw [e, List.all_append, ihall]
        simp [isDigit_char_ofNat _ (Nat.mod_lt n (by omega))]

theorem charsToNat_natToChars (n : Nat) : charsToNat (natToChars n) = n :=
  (natDigitsAux_spec (n + 1) n (Nat.lt_succ_self n)).1

theorem natToChars_ne_nil (n : Nat) : natToChars n ≠ [] :=
  (natDigitsAux_spec (n + 1) n (Nat.lt_succ_self n)).2.1

theorem natToChars_all_digit (n : Nat) : (natToChars n).all Char.isDigit = true :=
  (natDigitsAux_spec (n + 1) n (Nat.lt_succ_self n)).2.2

theorem charsToNat_replicate_zero (k : Nat) (ds : PyStr) :
    charsToNat (List.replicate k '0' ++ ds) = charsToNat ds := by
  induction k with
  | zero => rfl
  | succ k ih =>
    simp only [List.replicate_succ, List.cons_append, charsToNat, List.foldl_cons]
    have e : (10 * 0 + digitVal '0') = 0 := by decide
    simp only [charsToNat] at ih
    simpa [e] using ih

theorem pyIsdigit_zeroFill (w n : Nat) : pyIsdigit (zeroFill w n) = true := by
  unfold pyIsdigit zeroFill
  have h1 : (List.replicate (w - (natToChars n).length) '0' ++ natToChars n).isEmpty = false := by
    simp [List.isEmpty_iff, natToChars_ne_nil n]
  rw [h1]
  simp only [Bool.not_false, Bool.true_and, List.all_append, natToChars_all_digit,
    Bool.and_true]
  rw [List.all_eq_true]
  intro c hc
  rw [List.mem_replicate] at hc
  rw [hc.2]
  decide

theorem charsToNat_zeroFill (w n : Nat) : charsToNat (zeroFill w n) = n := by
  unfold zeroFill
  rw [charsToNat_replicate_zero, charsToNat_natToChars]

theorem zeroFill_length (w n : Nat) : (zeroFill w n).length = max w (natToChars n).length := by
  simp [zeroFill]
  omega

theorem pyIsdigit_ne_nil (i : PyStr) (h : pyIsdigit i = true) : i ≠ [] := by
  intro e
  rw [e] at h
  simp [pyIsdigit] at h

theorem pyIsdigit_ne (i t : PyStr) (hi : pyIsdigit i = true) (ht : pyIsdigit t = false) :
    i ≠ t := by
  intro e
  rw [e, ht] at hi
  cases hi

theorem pyIsdigit_not_mem (i : PyStr) (c : Char) (hi : pyIsdigit i = true)
    (hc : c.isDigit = false) : c ∉ i := by
  intro hm
  simp only [pyIsdigit, Bool.and_eq_true] at hi
  have := List.all_eq_true.mp hi.2 c hm
  rw [hc] at this
  cases this

theorem pyFormatInt_nonneg (w : Nat) (n : Int) (h : 0 ≤ n) :
    pyFormatInt w n = zeroFill w n.toNat := by
  simp [pyFormatInt, not_lt.mpr h]

/-! ### Lemmas about splitting and joining -/

theorem intercalate_cons_ne_nil {α : Type} (sep t : List α) (rest : List (List α))
    (h : rest ≠ []) :
    List.intercalate sep (t :: rest) = t ++ sep ++ List.intercalate sep rest := by
  cases rest with
  | nil => exact absurd rfl h
  | cons r rs => simp [List.intercalate, List.intersperse]

theorem splitOnChar_ne_nil (c : Char) (s : PyStr) : splitOnChar c s ≠ [] := by
  induction s with
  | nil => simp [splitOnChar]
  | cons x xs ih =>
    simp only [splitOnChar]
    cases hm : splitOnChar c xs with
    | nil => exact absurd hm ih
    | cons h t => by_cases hx : x = c <;> simp [hx]

theorem splitOnChar_of_not_mem (c : Char) (t : PyStr) (h : c ∉ t) :
    splitOnChar c t = [t] := by
  induction t with
  | nil => rfl
  | cons x xs ih =>
    have h' : ¬(c = x ∨ c ∈ xs) := fun hc => h (List.mem_cons.mpr hc)
    push_neg at h'
    have hx : ¬x = c := fun e => h'.1 e.symm
    rw [splitOnChar, ih h'.2]
    simp [hx]

theorem splitOnChar_append (c : Char) (t rest : PyStr) (h : c ∉ t) :
    splitOnChar c (t ++ c :: rest) = t :: splitOnChar c rest := by
  induction t with
  | nil =>
    simp only [List.nil_append, splitOnChar]
    cases hm : splitOnChar c rest with
    | nil => exact absurd hm (splitOnChar_ne_nil c rest)
    | cons hh tt => simp
  | cons x xs ih =>
    have h' : ¬(c = x ∨ c ∈ xs) := fun hc => h (List.mem_cons.mpr hc)
    push_neg at h'
    have hx : ¬x = c := fun e => h'.1 e.symm
    rw [List.cons_append, splitOnChar, ih h'.2]
    simp [hx]

theorem splitOnChar_intercalate (c : Char) (tokens : List PyStr)
    (hnil : tokens ≠ []) (hnc : ∀ t ∈ tokens, c ∉ t) :
    splitOnChar c (List.intercalate [c] tokens) = tokens := by
  induction tokens with
  | nil => exact absurd rfl hnil
  | cons t rest ih =>
    cases rest with
    | nil =>
      have e : List.intercalate [c] [t] = t := by simp [List.intercalate]
      rw [e, splitOnChar_of_not_mem c t (hnc t (List.mem_cons_self t []))]
    | cons r rs =>
      rw [intercalate_cons_ne_nil [c] t (r :: rs) (by simp)]
      have e : t ++ [c] ++ List.intercalate [c] (r :: rs)
          = t ++ c :: List.intercalate [c] (r :: rs) := by simp
      rw [e, splitOnChar_append c t _ (hnc t (List.mem_cons_self t _)),
        ih (by simp) (fun u hu => hnc u (List.mem_cons_of_mem _ hu))]

theorem mem_intercalate_self (c : Char) (tokens : List PyStr) (h2 : 2 ≤ tokens.length) :
    c ∈ List.intercalate [c] tokens := by
  cases tokens with
  | nil => simp at h2
  | cons t rest =>
    cases rest with
    | nil => simp at h2
    | cons r rs =>
      rw [intercalate_cons_ne_nil [c] t (r :: rs) (by simp)]
      simp

theorem not_mem_intercalate (csep cc : Char) (tokens : List PyStr)
    (hne : cc ≠ csep) (h : ∀ t ∈ tokens, cc ∉ t) :
    cc ∉ List.intercalate [csep] tokens := by
  induction tokens with
  | nil => simp [List.intercalate]
  | cons t rest ih =>
    cases rest with
    | nil =>
      have e : List.intercalate [csep] [t] = t := by simp [List.intercalate]
      rw [e]
      exact h t (List.mem_cons_self t [])
    | cons r rs =>
      rw [intercalate_cons_ne_nil [csep] t (r :: rs) (by simp)]
      intro hm
      rcases List.mem_append.mp hm with hm1 | hm1
      · rcases List.mem_append.mp hm1 with hm2 | hm2
        · exact h t (List.mem_cons_self t _) hm2
        · rw [List.mem_singleton] at hm2
          exact hne hm2
      · exact ih (fun u hu => h u (List.mem_cons_of_mem _ hu)) hm1

theorem contains_eq_true_of_mem (s : PyStr) (c : Char) (h : c ∈ s) :
    s.contains c = true :=
  List.elem_iff.mpr h

theorem contains_eq_false_of_not_mem (s : PyStr) (c : Char) (h : c ∉ s) :
    s.contains c = false := by
  cases hc : s.contains c with
  | false => rfl
  | true => exact absurd (List.elem_iff.mp hc) h

theorem getFilteringChar_space (tokens : List PyStr) (h2 : 2 ≤ tokens.length) :
    getFilteringChar (List.intercalate [' '] tokens) = [' '] := by
  unfold getFilteringChar
  rw [contains_eq_true_of_mem _ _ (mem_intercalate_self ' ' tokens h2)]
  rfl

theorem getFilteringChar_underscore (tokens : List PyStr) (h2 : 2 ≤ tokens.length)
    (hsp : ∀ t ∈ tokens, ' ' ∉ t) :
    getFilteringChar (List.intercalate ['_'] tokens) = ['_'] := by
  unfold getFilteringChar
  rw [contains_eq_false_of_not_mem _ _ (not_mem_intercalate '_' ' ' tokens (by decide) hsp),
    contains_eq_true_of_mem _ _ (mem_intercalate_self '_' tokens h2)]
  rfl

theorem splitToArray_intercalate (c : Char) (tokens : List PyStr)
    (hfc : getFilteringChar (List.intercalate [c] tokens) = [c])
    (hnil : tokens ≠ [])
    (hne : ∀ t ∈ tokens, t ≠ [])
    (hnc : ∀ t ∈ tokens, c ∉ t) :
    splitToArray (List.intercalate [c] tokens) = tokens := by
  unfold splitToArray filterByFilteringChar
  rw [hfc]
  simp only
  rw [splitOnChar_intercalate c tokens hnil hnc]
  rw [List.filter_eq_self]
  intro t ht
  simp [List.isEmpty_iff, hne t ht]

/-! ### Canonical-name extraction over the default schema -/

theorem combineArr_single (t : PyStr) (fc : PyStr) (h : t ≠ []) : combineArr [t] fc = t := by
  simp [combineArr, removeEmptyStringInArray, List.isEmpty_iff, h]

theorem pick_defPrefix (s : PyStr) (rest : List PyStr) (h : splitToArray s = strPr :: rest) :
    pickName defaultNaming strPrefixName s = strPr := by
  simp +decide [pickName, h, scanFirst, defaultNaming, prefixPartDefault, strPrefixName,
    getNamePart]

theorem pick_defIndex (s r i : PyStr) (h : splitToArray s = defTokens r i)
    (hi : pyIsdigit i = true) :
    pickName defaultNaming strIndexName s = i := by
  simp +decide [pickName, h, scanFirst, defaultNaming, indexPartDefault, strIndexName,
    getNamePart, getNamePartIdx, getNamePartIdxAux, defTokens, hi]

theorem pick_defSuffix (s r i : PyStr) (h : splitToArray s = defTokens r i) :
    pickName defaultNaming strSuffixName s = strSu := by
  simp +decide [pickName, h, scanFirst, defaultNaming, suffixPartDefault, strSuffixName,
    getNamePart, defTokens]

theorem getNamePart_defPrefix : getNamePart defaultNaming strPrefixName = some prefixPartDefault := rfl

theorem getNamePart_defIndex : getNamePart defaultNaming strIndexName = some indexPartDefault := rfl

theorem getNamePart_defSuffix : getNamePart defaultNaming strSuffixName = some suffixPartDefault := rfl

theorem getNamePartIdx_defPrefix : getNamePartIdx defaultNaming strPrefixName = 0 := rfl

theorem getNamePartIdx_defIndex : getNamePartIdx defaultNaming strIndexName = 2 := rfl

theorem getNamePartIdx_defSuffix : getNamePartIdx defaultNaming strSuffixName = 3 := rfl

theorem nameParts_defaultNaming : defaultNaming.nameParts =
    [prefixPartDefault, realNamePartDefault, indexPartDefault, suffixPartDefault] := rfl

theorem getName_defPrefix (s r i : PyStr) (h : splitToArray s = defTokens r i) :
    getName defaultNaming strPrefixName s = .ok strPr := by
  have hp := pick_defPrefix s (realTok r ++ [i, strSu]) (by rw [h]; rfl)
  simp +decide [getName, getNamePart_defPrefix, hp, h, getNamePartIdx_defPrefix,
    nameParts_defaultNaming, listIndex, defTokens, removeEach, prefixPartDefault]

theorem getName_defIndex (s r i : PyStr) (h : splitToArray s = defTokens r i)
    (hi : pyIsdigit i = true) :
    getName defaultNaming strIndexName s = .ok i := by
  have hp := pick_defIndex s r i h hi
  have hne := pyIsdigit_ne_nil i hi
  have hmem : i ∈ splitToArray s := by rw [h]; simp [defTokens]
  obtain ⟨k, hk⟩ := Option.isSome_iff_exists.mp (listIndex_isSome i _ hmem)
  simp +decide [getName, getNamePart_defIndex, hp, hk, List.isEmpty_iff, hne,
    indexPartDefault]

theorem getName_defSuffix (s r i : PyStr) (h : splitToArray s = defTokens r i)
    (hi : pyIsdigit i = true) (hrSu : r ≠ strSu) :
    getName defaultNaming strSuffixName s = .ok strSu := by
  have hp := pick_defSuffix s r i h
  have hiSu : ¬(i = strSu) := pyIsdigit_ne i strSu hi (by decide)
  by_cases hr : r = []
  · rw [hr] at h
    simp +decide [getName, getNamePart_defSuffix, hp, h, getNamePartIdx_defSuffix,
      nameParts_defaultNaming, listIndex, defTokens, realTok, hiSu, removeEach,
      suffixPartDefault]
  · simp +decide [getName, getNamePart_defSuffix, hp, h, getNamePartIdx_defSuffix,
      nameParts_defaultNaming, listIndex, defTokens, realTok, hr, hrSu, hiSu, removeEach,
      suffixPartDefault]

theorem exceptPure {α : Type} (v : α) : (pure v : Except PyErr α) = .ok v := rfl

theorem exceptBindOk {α β : Type} (v : α) (f : α → Except PyErr β) :
    (Except.ok v >>= f) = f v := rfl

theorem exceptBindErr {α β : Type} (e : PyErr) (f : α → Except PyErr β) :
    ((Except.error e : Except PyErr α) >>= f) = .error e := rfl

theorem exceptBindOk' {α β : Type} (v : α) (f : α → Except PyErr β) :
    Except.bind (Except.ok v) f = f v := rfl

theorem exceptBindErr' {α β : Type} (e : PyErr) (f : α → Except PyErr β) :
    Except.bind (Except.error e : Except PyErr α) f = .error e := rfl

theorem getRealName_def (s r i : PyStr) (h : splitToArray s = defTokens r i)
    (hi : pyIsdigit i = true) (hrSu : r ≠ strSu) :
    getRealName defaultNaming s = .ok r := by
  have h1 := getName_defPrefix s r i h
  have h2 := getName_defIndex s r i h hi
  have h3 := getName_defSuffix s r i h hi hrSu
  have hiSu : ¬(i = strSu) := pyIsdigit_ne i strSu hi (by decide)
  have hine := pyIsdigit_ne_nil i hi
  have hfilter : defaultNaming.nameParts.filter (fun part => part.type != .realnameType) =
      [prefixPartDefault, indexPartDefault, suffixPartDefault] := rfl
  have hmap : List.mapM.loop (fun part => getName defaultNaming part.name s)
      [prefixPartDefault, indexPartDefault, suffixPartDefault] [] = .ok [strPr, i, strSu] := by
    simp only [List.mapM.loop, prefixPartDefault, indexPartDefault,
      suffixPartDefault, h1, h2, h3, exceptBindOk, exceptPure, List.reverse_cons,
      List.reverse_nil, List.nil_append, List.cons_append, List.singleton_append]
  by_cases hr : r = []
  · rw [hr] at h ⊢
    simp +decide [getRealName, hfilter, hmap, exceptBindOk, h, defTokens, realTok,
      removeEach, hiSu, hine, combineArr, removeEmptyStringInArray]
  · by_cases hri : r = i
    · rw [hri] at hr ⊢
      simp +decide [getRealName, hfilter, hmap, exceptBindOk, h, defTokens, realTok, hri,
        removeEach, hiSu, hine, combineArr, removeEmptyStringInArray, List.isEmpty_iff]
    · simp +decide [getRealName, hfilter, hmap, exceptBindOk, h, defTokens, realTok, hr,
        hri, hrSu, hiSu, hine, removeEach, combineArr, removeEmptyStringInArray,
        List.isEmpty_iff]

theorem lastIdxOfName_default : lastIdxOfName strRealNameName defaultNaming.nameParts = some 1 := rfl

theorem convertNameToArray_def (s r i : PyStr) (h : splitToArray s = defTokens r i)
    (hi : pyIsdigit i = true) (hrSu : r ≠ strSu) :
    convertNameToArray defaultNaming s = .ok [strPr, r, i, strSu] := by
  have h1 := getName_defPrefix s r i h
  have h2 := getName_defIndex s r i h hi
  have h3 := getName_defSuffix s r i h hi hrSu
  have h5 := getRealName_def s r i h hi hrSu
  have hmap : List.mapM.loop
      (fun part => if part.name == strRealNameName then Except.ok [] else getName defaultNaming part.name s)
      defaultNaming.nameParts [] = .ok [strPr, [], i, strSu] := by
    simp only [nameParts_defaultNaming, List.mapM.loop, prefixPartDefault,
      realNamePartDefault, indexPartDefault, suffixPartDefault]
    simp +decide [h1, h2, h3, exceptBindOk, exceptPure]
  have hmapM : List.mapM
      (fun part => if part.name == strRealNameName then Except.ok [] else getName defaultNaming part.name s)
      defaultNaming.nameParts = .ok [strPr, [], i, strSu] := hmap
  simp only [convertNameToArray, hmapM, exceptBindOk, lastIdxOfName_default, h5]
  rfl

theorem combineArr_defTokens (fc : Char) (r i' : PyStr) (hi' : i' ≠ []) :
    combineArr [strPr, r, i', strSu] [fc] = defName fc r i' := by
  by_cases hr : r = [] <;>
    simp +decide [combineArr, removeEmptyStringInArray, defName, defTokens, realTok,
      List.isEmpty_iff, hr, hi']

theorem setIndexPaddingNum_def (fc : Char) (r i : PyStr)
    (hfc : getFilteringChar (defName fc r i) = [fc])
    (h : splitToArray (defName fc r i) = defTokens r i)
    (hi : pyIsdigit i = true) (hrSu : r ≠ strSu) :
    setIndexPaddingNum defaultNaming (defName fc r i) none =
      .ok (defName fc r (zeroFill 2 (charsToNat i))) := by
  have hc := convertNameToArray_def _ r i h hi hrSu
  have h2 := getName_defIndex _ r i h hi
  have hine := pyIsdigit_ne_nil i hi
  have hpad : convertDigitIntoPaddingString defaultNaming (.str i) none =
      zeroFill 2 (charsToNat i) := by
    simp [convertDigitIntoPaddingString, hi, pyFormatInt_nonneg, defaultNaming]
  have hset : pySetItem [strPr, r, i, strSu] (getNamePartIdx defaultNaming strIndexName)
      (zeroFill 2 (charsToNat i)) = .ok [strPr, r, zeroFill 2 (charsToNat i), strSu] := by
    rw [getNamePartIdx_defIndex]
    simp +decide [pySetItem, pyResolveIdx]
  unfold setIndexPaddingNum
  rw [hfc, hc]
  simp only [exceptBindOk, exceptBindOk', h2, hpad, hset, List.isEmpty_iff, hine,
    if_false]
  rw [combineArr_defTokens fc r _ (pyIsdigit_ne_nil _ (pyIsdigit_zeroFill 2 (charsToNat i)))]

theorem convertToDictionary_def (s r i : PyStr) (h : splitToArray s = defTokens r i)
    (hi : pyIsdigit i = true) (hrSu : r ≠ strSu) :
    convertToDictionary defaultNaming s =
      .ok [(strPrefixName, strPr), (strIndexName, i), (strSuffixName, strSu),
           (strRealNameName, r)] := by
  have h1 := getName_defPrefix s r i h
  have h2 := getName_defIndex s r i h hi
  have h3 := getName_defSuffix s r i h hi hrSu
  have h5 := getRealName_def s r i h hi hrSu
  have hfilter : defaultNaming.nameParts.filter (fun part => part.name != strRealNameName) =
      [prefixPartDefault, indexPartDefault, suffixPartDefault] := rfl
  have hmap : List.mapM.loop
      (fun part => getName defaultNaming part.name s >>= fun v => Except.ok (part.name, v))
      [prefixPartDefault, indexPartDefault, suffixPartDefault] []
      = .ok [(strPrefixName, strPr), (strIndexName, i), (strSuffixName, strSu)] := by
    simp only [List.mapM.loop, prefixPartDefault, indexPartDefault, suffixPartDefault,
      h1, h2, h3, exceptBindOk, exceptPure, List.reverse_cons, List.reverse_nil,
      List.nil_append, List.cons_append, List.singleton_append]
  have hmapM : List.mapM
      (fun part => getName defaultNaming part.name s >>= fun v => Except.ok (part.name, v))
      [prefixPartDefault, indexPartDefault, suffixPartDefault]
      = .ok [(strPrefixName, strPr), (strIndexName, i), (strSuffixName, strSu)] := hmap
  simp only [convertToDictionary, hfilter, hmapM, exceptBindOk, h5]
  rfl

theorem defTokens_ne_nil (r i : PyStr) (hi : pyIsdigit i = true) :
    ∀ t ∈ defTokens r i, t ≠ [] := by
  intro t ht
  by_cases hr : r = []
  · rw [hr] at ht
    simp [defTokens, realTok] at ht
    rcases ht with h | h | h
    · rw [h]; decide
    · rw [h]; exact pyIsdigit_ne_nil i hi
    · rw [h]; decide
  · simp [defTokens, realTok, hr] at ht
    rcases ht with h | h | h | h
    · rw [h]; decide
    · rw [h]; exact hr
    · rw [h]; exact pyIsdigit_ne_nil i hi
    · rw [h]; decide

theorem defTokens_length (r i : PyStr) : 2 ≤ (defTokens r i).length := by
  by_cases hr : r = [] <;> simp [defTokens, realTok, hr]

theorem defTokens_no_space (r i : PyStr) (hi : pyIsdigit i = true) (hrs : ' ' ∉ r) :
    ∀ t ∈ defTokens r i, ' ' ∉ t := by
  intro t ht
  by_cases hr : r = []
  · rw [hr] at ht
    simp [defTokens, realTok] at ht
    rcases ht with h | h | h
    · rw [h]; decide
    · rw [h]; exact pyIsdigit_not_mem i ' ' hi (by decide)
    · rw [h]; decide
  · simp [defTokens, realTok, hr] at ht
    rcases ht with h | h | h | h
    · rw [h]; decide
    · rw [h]; exact hrs
    · rw [h]; exact pyIsdigit_not_mem i ' ' hi (by decide)
    · rw [h]; decide

theorem defTokens_no_underscore (r i : PyStr) (hi : pyIsdigit i = true) (hru : '_' ∉ r) :
    ∀ t ∈ defTokens r i, '_' ∉ t := by
  intro t ht
  by_cases hr : r = []
  · rw [hr] at ht
    simp [defTokens, realTok] at ht
    rcases ht with h | h | h
    · rw [h]; decide
    · rw [h]; exact pyIsdigit_not_mem i '_' hi (by decide)
    · rw [h]; decide
  · simp [defTokens, realTok, hr] at ht
    rcases ht with h | h | h | h
    · rw [h]; decide
    · rw [h]; exact hru
    · rw [h]; exact pyIsdigit_not_mem i '_' hi (by decide)
    · rw [h]; decide

theorem defName_facts_space (r i : PyStr) (hi : pyIsdigit i = true) (hrs : ' ' ∉ r) :
    getFilteringChar (defName ' ' r i) = [' ']
  ∧ splitToArray (defName ' ' r i) = defTokens r i := by
  have hfc := getFilteringChar_space (defTokens r i) (defTokens_length r i)
  refine ⟨hfc, ?_⟩
  exact splitToArray_intercalate ' ' (defTokens r i) hfc
    (by by_cases hr : r = [] <;> simp [defTokens, realTok, hr])
    (defTokens_ne_nil r i hi) (defTokens_no_space r i hi hrs)

theorem defName_facts_underscore (r i : PyStr) (hi : pyIsdigit i = true)
    (hrs : ' ' ∉ r) (hru : '_' ∉ r) :
    getFilteringChar (defName '_' r i) = ['_']
  ∧ splitToArray (defName '_' r i) = defTokens r i := by
  have hfc := getFilteringChar_underscore (defTokens r i) (defTokens_length r i)
    (defTokens_no_space r i hi hrs)
  refine ⟨hfc, ?_⟩
  exact splitToArray_intercalate '_' (defTokens r i) hfc
    (by by_cases hr : r = [] <;> simp [defTokens, realTok, hr])
    (defTokens_ne_nil r i hi) (defTokens_no_underscore r i hi hru)

theorem combine_def (r i : PyStr) (hi : pyIsdigit i = true) (hrs : ' ' ∉ r)
    (hrSu : r ≠ strSu) :
    combine defaultNaming
      [(strPrefixName, strPr), (strRealNameName, r), (strIndexName, i), (strSuffixName, strSu)]
      [' ']
    = .ok (defName ' ' r (zeroFill 2 (charsToNat i))) := by
  obtain ⟨hfc, hsplit⟩ := defName_facts_space r i hi hrs
  have harr : defaultNaming.nameParts.map (fun part =>
      match List.lookup part.name
        [(strPrefixName, strPr), (strRealNameName, r), (strIndexName, i), (strSuffixName, strSu)] with
      | some v => v
      | none => []) = [strPr, r, i, strSu] := by
    rfl
  unfold combine
  rw [harr]
  show setIndexPaddingNum defaultNaming (combineArr [strPr, r, i, strSu] [' ']) none = _
  rw [combineArr_defTokens ' ' r i (pyIsdigit_ne_nil i hi)]
  exact setIndexPaddingNum_def ' ' r i hfc hsplit hi hrSu

/-! ### Claim C1 — round trip (corrected) -/

/-- Claim C1 (amended): the round trip holds for every valid mapping whose
RealName value contains no space and is not itself the suffix value `"Su"`:
`combine` produces a name whose `convert_to_dictionary` yields exactly the
original mapping with the index normalized to the default zero-padding
(the numeric index value is preserved). -/
theorem claim_C1_roundtrip_amended (r i : PyStr) (hi : pyIsdigit i = true)
    (hrs : ' ' ∉ r) (hrSu : r ≠ strSu) :
    ∃ s, combine defaultNaming
        [(strPrefixName, strPr), (strRealNameName, r), (strIndexName, i), (strSuffixName, strSu)]
        [' '] = .ok s
  ∧ convertToDictionary defaultNaming s =
      .ok [(strPrefixName, strPr), (strIndexName, zeroFill 2 (charsToNat i)),
           (strSuffixName, strSu), (strRealNameName, r)]
  ∧ charsToNat (zeroFill 2 (charsToNat i)) = charsToNat i := by
  refine ⟨defName ' ' r (zeroFill 2 (charsToNat i)), combine_def r i hi hrs hrSu, ?_,
    charsToNat_zeroFill 2 _⟩
  have hip : pyIsdigit (zeroFill 2 (charsToNat i)) = true := pyIsdigit_zeroFill 2 _
  obtain ⟨hfc, hsplit⟩ := defName_facts_space r (zeroFill 2 (charsToNat i)) hip hrs
  exact convertToDictionary_def _ r _ hsplit hip hrSu

/-- Witness for the amended C1 at `RealName = "Arm"`, `Index = "7"`. -/
theorem claim_C1_roundtrip_amended_witness :
    ∃ s, combine defaultNaming
        [(strPrefixName, strPr), (strRealNameName, ['A','r','m']), (strIndexName, ['7']),
         (strSuffixName, strSu)] [' '] = .ok s
  ∧ convertToDictionary defaultNaming s =
      .ok [(strPrefixName, strPr), (strIndexName, zeroFill 2 (charsToNat ['7'])),
           (strSuffixName, strSu), (strRealNameName, ['A','r','m'])]
  ∧ charsToNat (zeroFill 2 (charsToNat ['7'])) = charsToNat ['7'] :=
  claim_C1_roundtrip_amended ['A','r','m'] ['7'] (by decide) (by decide) (by decide)

/-! ### Claim C4 — index arithmetic (corrected) -/

theorem clamp_eq_max (v : Int) : (if v < 0 then 0 else v) = max 0 v := by
  rcases lt_or_le v 0 with h | h
  · simp [h, max_eq_left h.le]
  · simp [not_lt.mpr h, max_eq_right h]

theorem increaseIndex_def (fc : Char) (r i : PyStr) (k : Int)
    (hfc : getFilteringChar (defName fc r i) = [fc])
    (hsplit : splitToArray (defName fc r i) = defTokens r i)
    (hfc2 : getFilteringChar
      (defName fc r (zeroFill i.length (max 0 ((charsToNat i : Int) + k)).toNat)) = [fc])
    (hsplit2 : splitToArray
        (defName fc r (zeroFill i.length (max 0 ((charsToNat i : Int) + k)).toNat))
      = defTokens r (zeroFill i.length (max 0 ((charsToNat i : Int) + k)).toNat))
    (hi : pyIsdigit i = true) (hrSu : r ≠ strSu) :
    increaseIndex defaultNaming (defName fc r i) k =
      .ok (defName fc r (zeroFill 2 (max 0 ((charsToNat i : Int) + k)).toNat)) := by
  have hconv := convertNameToArray_def _ r i hsplit hi hrSu
  have hget : pyGetItem [strPr, r, i, strSu] (2 : Int) = .ok i := rfl
  have hpp : pyParseInt i = some ((charsToNat i : Int)) := by simp [pyParseInt, hi]
  have hine := pyIsdigit_ne_nil i hi
  have hset : pySetItem [strPr, r, i, strSu] (2 : Int)
      (zeroFill i.length (max 0 ((charsToNat i : Int) + k)).toNat)
      = .ok [strPr, r, zeroFill i.length (max 0 ((charsToNat i : Int) + k)).toNat, strSu] := rfl
  have hclamp : (if (charsToNat i : Int) + k < 0 then 0 else (charsToNat i : Int) + k)
      = max 0 ((charsToNat i : Int) + k) := clamp_eq_max _
  unfold increaseIndex
  rw [hfc, hconv]
  simp only [exceptBindOk, exceptBindOk']
  rw [getNamePartIdx_defIndex, if_pos (by decide : (2 : Int) ≥ 0)]
  simp only [exceptBindOk, exceptBindOk', hget, List.isEmpty_iff, hine, if_false, hpp]
  rw [hclamp]
  rw [pyFormatInt_nonneg _ _ (le_max_left 0 _)]
  simp only [hset, exceptBindOk, exceptBindOk']
  rw [combineArr_defTokens fc r _ (pyIsdigit_ne_nil _ (pyIsdigit_zeroFill _ _))]
  rw [setIndexPaddingNum_def fc r _ hfc2 hsplit2 (pyIsdigit_zeroFill _ _) hrSu]
  rw [charsToNat_zeroFill]

/-- Claim C4 (amended): on canonical names over the default schema (either
delimiter), `increase_index` yields index value `max 0 (current + k)` with an
empty index slot counting as `-1` (the concrete conjuncts show
`"Pr_Arm_Su" + 1 → "Pr_Arm_00_Su"`), but the resulting index token is NOT kept
at the original width: it is re-emitted at the default padding, so its width is
`max 2 (digits of the new value)`. -/
theorem claim_C4_increase_index_amended :
    (∀ (fc : Char) (r i : PyStr) (k : Int), (fc = ' ' ∨ fc = '_') → pyIsdigit i = true →
      ' ' ∉ r → '_' ∉ r → r ≠ strSu →
      ∃ t, increaseIndex defaultNaming (defName fc r i) k = .ok t
        ∧ getIndexAsDigit defaultNaming t = .ok (some (max 0 ((charsToNat i : Int) + k)))
        ∧ getName defaultNaming strIndexName t
            = .ok (zeroFill 2 (max 0 ((charsToNat i : Int) + k)).toNat)
        ∧ (zeroFill 2 (max 0 ((charsToNat i : Int) + k)).toNat).length
            = max 2 (natToChars (max 0 ((charsToNat i : Int) + k)).toNat).length)
  ∧ increaseIndex defaultNaming ['P','r','_','A','r','m','_','S','u'] 1
      = .ok ['P','r','_','A','r','m','_','0','0','_','S','u']
  ∧ getIndexAsDigit defaultNaming ['P','r','_','A','r','m','_','S','u'] = .ok none := by
  refine ⟨?_, rfl, rfl⟩
  intro fc r i k hfc hi hrs hru hrSu
  have hipM : pyIsdigit (zeroFill i.length (max 0 ((charsToNat i : Int) + k)).toNat) = true :=
    pyIsdigit_zeroFill _ _
  have hip2 : pyIsdigit (zeroFill 2 (max 0 ((charsToNat i : Int) + k)).toNat) = true :=
    pyIsdigit_zeroFill _ _
  have main : ∀ hA : getFilteringChar (defName fc r i) = [fc],
      ∀ hB : splitToArray (defName fc r i) = defTokens r i,
      ∀ hA2 : getFilteringChar
        (defName fc r (zeroFill i.length (max 0 ((charsToNat i : Int) + k)).toNat)) = [fc],
      ∀ hB2 : splitToArray
          (defName fc r (zeroFill i.length (max 0 ((charsToNat i : Int) + k)).toNat))
        = defTokens r (zeroFill i.length (max 0 ((charsToNat i : Int) + k)).toNat),
      ∀ hB3 : splitToArray
          (defName fc r (zeroFill 2 (max 0 ((charsToNat i : Int) + k)).toNat))
        = defTokens r (zeroFill 2 (max 0 ((charsToNat i : Int) + k)).toNat),
      ∃ t, increaseIndex defaultNaming (defName fc r i) k = .ok t
        ∧ getIndexAsDigit defaultNaming t = .ok (some (max 0 ((charsToNat i : Int) + k)))
        ∧ getName defaultNaming strIndexName t
            = .ok (zeroFill 2 (max 0 ((charsToNat i : Int) + k)).toNat)
        ∧ (zeroFill 2 (max 0 ((charsToNat i : Int) + k)).toNat).length
            = max 2 (natToChars (max 0 ((charsToNat i : Int) + k)).toNat).length := by
    intro hA hB hA2 hB2 hB3
    have hname := getName_defIndex _ r _ hB3 hip2
    refine ⟨_, increaseIndex_def fc r i k hA hB hA2 hB2 hi hrSu, ?_, hname,
      zeroFill_length _ _⟩
    unfold getIndexAsDigit
    rw [hname]
    simp only [exceptBindOk, exceptBindOk', List.isEmpty_iff,
      pyIsdigit_ne_nil _ hip2, if_false]
    simp only [pyParseInt, hip2, charsToNat_zeroFill, if_true]
    rw [Int.toNat_of_nonneg (le_max_left 0 _)]
  rcases hfc with rfl | rfl
  · obtain ⟨hA, hB⟩ := defName_facts_space r i hi hrs
    obtain ⟨hA2, hB2⟩ := defName_facts_space r _ hipM hrs
    obtain ⟨hA3, hB3⟩ := defName_facts_space r _ hip2 hrs
    exact main hA hB hA2 hB2 hB3
  · obtain ⟨hA, hB⟩ := defName_facts_underscore r i hi hrs hru
    obtain ⟨hA2, hB2⟩ := defName_facts_underscore r _ hipM hrs hru
    obtain ⟨hA3, hB3⟩ := defName_facts_underscore r _ hip2 hrs hru
    exact main hA hB hA2 hB2 hB3

/-- Witness for the amended C4 at `"Pr_Arm_01_Su"`, increment 2. -/
theorem claim_C4_increase_index_amended_witness :
    ∃ t, increaseIndex defaultNaming (defName '_' ['A','r','m'] ['0','1']) 2 = .ok t
      ∧ getIndexAsDigit defaultNaming t
          = .ok (some (max 0 ((charsToNat ['0','1'] : Int) + 2)))
      ∧ getName defaultNaming strIndexName t
          = .ok (zeroFill 2 (max 0 ((charsToNat ['0','1'] : Int) + 2)).toNat)
      ∧ (zeroFill 2 (max 0 ((charsToNat ['0','1'] : Int) + 2)).toNat).length
          = max 2 (natToChars (max 0 ((charsToNat ['0','1'] : Int) + 2)).toNat).length :=
  claim_C4_increase_index_amended.1 '_' ['A','r','m'] ['0','1'] 2 (Or.inr rfl)
    (by decide) (by decide) (by decide) (by decide)

/-! ### Claim C5 — mirroring (corrected): extraction over the side schema -/

theorem getNamePart_sideSide : getNamePart sideNaming ['S','i','d','e'] = some sidePart := rfl

theorem getNamePart_sideIndex : getNamePart sideNaming strIndexName = some indexPartDefault := rfl

theorem getNamePartIdx_sideSide : getNamePartIdx sideNaming ['S','i','d','e'] = 0 := rfl

theorem getNamePartIdx_sideIndex : getNamePartIdx sideNaming strIndexName = 2 := rfl

theorem nameParts_sideNaming : sideNaming.nameParts =
    [sidePart, realNamePartDefault, indexPartDefault] := rfl

theorem sideTokens_facts (side r i : PyStr) (hside : side = strL ∨ side = strR)
    (hi : pyIsdigit i = true) (hrs : ' ' ∉ r) (hru : '_' ∉ r) :
    getFilteringChar (sideName side r i) = ['_']
  ∧ splitToArray (sideName side r i) = sideTokens side r i := by
  have hsne : side ≠ [] := by rcases hside with rfl | rfl <;> decide
  have hss : ' ' ∉ side := by rcases hside with rfl | rfl <;> decide
  have hsu : '_' ∉ side := by rcases hside with rfl | rfl <;> decide
  have hne : ∀ t ∈ sideTokens side r i, t ≠ [] := by
    intro t ht
    by_cases hr : r = []
    · rw [hr] at ht
      simp [sideTokens, realTok] at ht
      rcases ht with h | h
      · rw [h]; exact hsne
      · rw [h]; exact pyIsdigit_ne_nil i hi
    · simp [sideTokens, realTok, hr] at ht
      rcases ht with h | h | h
      · rw [h]; exact hsne
      · rw [h]; exact hr
      · rw [h]; exact pyIsdigit_ne_nil i hi
  have hnsp : ∀ t ∈ sideTokens side r i, ' ' ∉ t := by
    intro t ht
    by_cases hr : r = []
    · rw [hr] at ht
      simp [sideTokens, realTok] at ht
      rcases ht with h | h
      · rw [h]; exact hss
      · rw [h]; exact pyIsdigit_not_mem i ' ' hi (by decide)
    · simp [sideTokens, realTok, hr] at ht
      rcases ht with h | h | h
      · rw [h]; exact hss
      · rw [h]; exact hrs
      · rw [h]; exact pyIsdigit_not_mem i ' ' hi (by decide)
  have hnu : ∀ t ∈ sideTokens side r i, '_' ∉ t := by
    intro t ht
    by_cases hr : r = []
    · rw [hr] at ht
      simp [sideTokens, realTok] at ht
      rcases ht with h | h
      · rw [h]; exact hsu
      · rw [h]; exact pyIsdigit_not_mem i '_' hi (by decide)
    · simp [sideTokens, realTok, hr] at ht
      rcases ht with h | h | h
      · rw [h]; exact hsu
      · rw [h]; exact hru
      · rw [h]; exact pyIsdigit_not_mem i '_' hi (by decide)
  have hlen : 2 ≤ (sideTokens side r i).length := by
    by_cases hr : r = [] <;> simp [sideTokens, realTok, hr]
  have hfc := getFilteringChar_underscore (sideTokens side r i) hlen hnsp
  refine ⟨hfc, splitToArray_intercalate '_' (sideTokens side r i) hfc ?_ hne hnu⟩
  by_cases hr : r = [] <;> simp [sideTokens, realTok, hr]

theorem getNamePartIdx_sideReal : getNamePartIdx sideNaming strRealNameName = 1 := rfl

theorem pick_sideSide (s side r i : PyStr) (h : splitToArray s = sideTokens side r i)
    (hside : side = strL ∨ side = strR) :
    pickName sideNaming ['S','i','d','e'] s = side := by
  rcases hside with rfl | rfl <;>
    simp +decide [pickName, getNamePart_sideSide, h, sideTokens, scanFirst, sidePart]

theorem pick_sideIndex (s side r i : PyStr) (h : splitToArray s = sideTokens side r i)
    (hi : pyIsdigit i = true) :
    pickName sideNaming strIndexName s = i := by
  simp +decide [pickName, getNamePart_sideIndex, h, sideTokens, scanFirst, indexPartDefault,
    hi, getNamePartIdx_sideIndex, getNamePartIdx_sideReal]

theorem getName_sideSide (s side r i : PyStr) (h : splitToArray s = sideTokens side r i)
    (hside : side = strL ∨ side = strR) :
    getName sideNaming ['S','i','d','e'] s = .ok side := by
  have hsne : side ≠ [] := by rcases hside with rfl | rfl <;> decide
  have hp := pick_sideSide s side r i h hside
  simp +decide [getName, getNamePart_sideSide, hp, h, getNamePartIdx_sideSide,
    nameParts_sideNaming, listIndex, sideTokens, removeEach, sidePart,
    List.isEmpty_iff, hsne]

theorem getName_sideIndex (s side r i : PyStr) (h : splitToArray s = sideTokens side r i)
    (hi : pyIsdigit i = true) :
    getName sideNaming strIndexName s = .ok i := by
  have hp := pick_sideIndex s side r i h hi
  have hne := pyIsdigit_ne_nil i hi
  have hmem : i ∈ splitToArray s := by rw [h]; simp [sideTokens]
  obtain ⟨k, hk⟩ := Option.isSome_iff_exists.mp (listIndex_isSome i _ hmem)
  simp +decide [getName, getNamePart_sideIndex, hp, hk, List.isEmpty_iff, hne,
    indexPartDefault]

theorem getRealName_side (s side r i : PyStr) (h : splitToArray s = sideTokens side r i)
    (hside : side = strL ∨ side = strR) (hi : pyIsdigit i = true) :
    getRealName sideNaming s = .ok r := by
  have h1 := getName_sideSide s side r i h hside
  have h2 := getName_sideIndex s side r i h hi
  have hine := pyIsdigit_ne_nil i hi
  have hfilter : sideNaming.nameParts.filter (fun part => part.type != .realnameType) =
      [sidePart, indexPartDefault] := rfl
  have hmap : List.mapM.loop (fun part => getName sideNaming part.name s)
      [sidePart, indexPartDefault] [] = .ok [side, i] := by
    simp only [List.mapM.loop, sidePart, indexPartDefault, h1, h2, exceptBindOk,
      exceptPure, List.reverse_cons, List.reverse_nil, List.nil_append,
      List.singleton_append]
  by_cases hr : r = []
  · rw [hr] at h ⊢
    simp +decide [getRealName, hfilter, hmap, exceptBindOk, h, sideTokens, realTok,
      removeEach, hine, combineArr, removeEmptyStringInArray, List.isEmpty_iff]
  · by_cases hri : r = i
    · rw [hri] at hr ⊢
      simp +decide [getRealName, hfilter, hmap, exceptBindOk, h, sideTokens, realTok, hri,
        removeEach, hine, combineArr, removeEmptyStringInArray, List.isEmpty_iff]
    · simp +decide [getRealName, hfilter, hmap, exceptBindOk, h, sideTokens, realTok, hr,
        hri, hine, removeEach, combineArr, removeEmptyStringInArray, List.isEmpty_iff]

theorem lastIdxOfName_side : lastIdxOfName strRealNameName sideNaming.nameParts = some 1 := rfl

theorem convertNameToArray_side (s side r i : PyStr) (h : splitToArray s = sideTokens side r i)
    (hside : side = strL ∨ side = strR) (hi : pyIsdigit i = true) :
    convertNameToArray sideNaming s = .ok [side, r, i] := by
  have h1 := getName_sideSide s side r i h hside
  have h2 := getName_sideIndex s side r i h hi
  have h5 := getRealName_side s side r i h hside hi
  have hmap : List.mapM.loop
      (fun part => if part.name == strRealNameName then Except.ok []
        else getName sideNaming part.name s) sideNaming.nameParts [] = .ok [side, [], i] := by
    simp only [nameParts_sideNaming, List.mapM.loop, sidePart, realNamePartDefault,
      indexPartDefault]
    simp +decide [h1, h2, exceptBindOk, exceptPure]
  have hmapM : List.mapM
      (fun part => if part.name == strRealNameName then Except.ok []
        else getName sideNaming part.name s) sideNaming.nameParts = .ok [side, [], i] := hmap
  simp only [convertNameToArray, hmapM, exceptBindOk, exceptBindOk', lastIdxOfName_side, h5]
  rfl

theorem combineArr_sideTokens (side r i' : PyStr) (hs : side ≠ []) (hi' : i' ≠ []) :
    combineArr [side, r, i'] ['_'] = sideName side r i' := by
  by_cases hr : r = [] <;>
    simp +decide [combineArr, removeEmptyStringInArray, sideName, sideTokens, realTok,
      List.isEmpty_iff, hr, hs, hi']

theorem genMirroringName_side (side r i : PyStr) (hside : side = strL ∨ side = strR)
    (hi : pyIsdigit i = true) (hrs : ' ' ∉ r) (hru : '_' ∉ r) :
    genMirroringName sideNaming (sideName side r i) = .ok (sideName (oppSide side) r i) := by
  obtain ⟨hfc, hsplit⟩ := sideTokens_facts side r i hside hi hrs hru
  have hconv := convertNameToArray_side _ side r i hsplit hside hi
  have hname := getName_sideSide _ side r i hsplit hside
  have hopp : getMostDifferentWeightValue sidePart side = oppSide side := by
    rcases hside with rfl | rfl <;> decide
  have hcond : (!(oppSide side).isEmpty && side != oppSide side) = true := by
    rcases hside with rfl | rfl <;> decide
  have hset : pySetItem [side, r, i] (0 : Int) (oppSide side) = .ok [oppSide side, r, i] := rfl
  have hsne : oppSide side ≠ [] := by rcases hside with rfl | rfl <;> decide
  unfold genMirroringName
  rw [hconv]
  simp only [exceptBindOk, exceptBindOk', nameParts_sideNaming]
  simp +decide only [List.foldlM, sidePart, realNamePartDefault, indexPartDefault,
    hname, exceptBindOk, exceptBindOk']
  rw [show getNamePartIdx sideNaming ['S','i','d','e'] = 0 from rfl]
  simp only [show getMostDifferentWeightValue
      ⟨['S','i','d','e'], .prefixType, [strL, strR], [5, 10], true⟩ side
      = getMostDifferentWeightValue sidePart side from rfl, hopp, hcond, if_true, hset,
    exceptBindOk, exceptBindOk']
  simp only [if_false, exceptPure, exceptBindOk, exceptBindOk']
  rw [hfc]
  rw [combineArr_sideTokens (oppSide side) r i hsne (pyIsdigit_ne_nil i hi)]

/-- Claim C5 (amended): over the spec's example schema with a direction part
whose values are exactly `["L","R"]` (documented weights — the actual
constructor cannot even build the part, see C3), a single `gen_mirroring_name`
on a canonical name substitutes the opposite direction value and leaves the
other parts unchanged, and the double application is the identity on canonical
names; `gen_mirroring_name("L_Arm_01") = "R_Arm_01"`.  It is not an involution
on arbitrary strings (see the counterexample). -/
theorem claim_C5_mirror_amended :
    (∀ (side r i : PyStr), (side = strL ∨ side = strR) → pyIsdigit i = true →
      ' ' ∉ r → '_' ∉ r →
      genMirroringName sideNaming (sideName side r i) = .ok (sideName (oppSide side) r i)
      ∧ (genMirroringName sideNaming (sideName side r i)).bind (genMirroringName sideNaming)
          = .ok (sideName side r i))
  ∧ genMirroringName sideNaming ['L','_','A','r','m','_','0','1']
      = .ok ['R','_','A','r','m','_','0','1'] := by
  refine ⟨?_, rfl⟩
  intro side r i hside hi hrs hru
  have h1 := genMirroringName_side side r i hside hi hrs hru
  have hopp2 : oppSide (oppSide side) = side := by rcases hside with rfl | rfl <;> decide
  have hside2 : oppSide side = strL ∨ oppSide side = strR := by
    rcases hside with rfl | rfl
    · exact Or.inr rfl
    · exact Or.inl rfl
  have h2 := genMirroringName_side (oppSide side) r i hside2 hi hrs hru
  rw [hopp2] at h2
  refine ⟨h1, ?_⟩
  rw [h1]
  exact h2

/-- Witness for the amended C5 at `"L_Arm_01"`. -/
theorem claim_C5_mirror_amended_witness :
    genMirroringName sideNaming (sideName strL ['A','r','m'] ['0','1'])
      = .ok (sideName (oppSide strL) ['A','r','m'] ['0','1'])
  ∧ (genMirroringName sideNaming (sideName strL ['A','r','m'] ['0','1'])).bind
      (genMirroringName sideNaming) = .ok (sideName strL ['A','r','m'] ['0','1']) :=
  claim_C5_mirror_amended.1 strL ['A','r','m'] ['0','1'] (Or.inl rfl)
    (by decide) (by decide) (by decide)

/-! ### Claim C7 — stable index sort (confirmed) -/

theorem stableInsert_perm (x : Nat × Int) (l : List (Nat × Int)) :
    (stableInsert x l).Perm (x :: l) := by
  induction l with
  | nil => exact List.Perm.refl _
  | cons y ys ih =>
    unfold stableInsert
    by_cases h : x.2 ≤ y.2
    · rw [if_pos h]
    · rw [if_neg h]
      exact (List.Perm.cons y ih).trans (List.Perm.swap x y ys)

theorem stableSortByKey_perm (l : List (Nat × Int)) : (stableSortByKey l).Perm l := by
  induction l with
  | nil => exact List.Perm.refl _
  | cons x xs ih =>
    unfold stableSortByKey
    exact (stableInsert_perm x _).trans (List.Perm.cons x ih)

theorem mem_stableInsert (x y : Nat × Int) (l : List (Nat × Int)) :
    y ∈ stableInsert x l ↔ y = x ∨ y ∈ l := by
  rw [(stableInsert_perm x l).mem_iff, List.mem_cons]

theorem stableInsert_pairwise (x : Nat × Int) (l : List (Nat × Int))
    (hl : l.Pairwise (fun a b => a.2 < b.2 ∨ (a.2 = b.2 ∧ a.1 < b.1)))
    (hx : ∀ y ∈ l, x.1 < y.1) :
    (stableInsert x l).Pairwise (fun a b => a.2 < b.2 ∨ (a.2 = b.2 ∧ a.1 < b.1)) := by
  induction l with
  | nil => simp [stableInsert]
  | cons y ys ih =>
    rcases List.pairwise_cons.mp hl with ⟨hy, hys⟩
    unfold stableInsert
    by_cases h : x.2 ≤ y.2
    · rw [if_pos h]
      refine List.pairwise_cons.mpr ⟨?_, hl⟩
      intro b hb
      rcases List.mem_cons.mp hb with rfl | hb
      · rcases lt_or_eq_of_le h with h' | h'
        · exact Or.inl h'
        · exact Or.inr ⟨h', hx b (List.mem_cons_self _ _)⟩
      · rcases hy b hb with hlt | ⟨heq, -⟩
        · exact Or.inl (lt_of_le_of_lt h hlt)
        · rcases lt_or_eq_of_le h with h' | h'
          · exact Or.inl (h'.trans_le heq.le)
          · exact Or.inr ⟨h'.trans heq, hx b (List.mem_cons_of_mem _ hb)⟩
    · rw [if_neg h]
      refine List.pairwise_cons.mpr
        ⟨?_, ih hys (fun z hz => hx z (List.mem_cons_of_mem _ hz))⟩
      intro b hb
      rcases (mem_stableInsert x b ys).mp hb with rfl | hb
      · exact Or.inl (lt_of_not_le h)
      · exact hy b hb

theorem stableSortByKey_pairwise (l : List (Nat × Int))
    (hl : l.Pairwise (fun a b => a.1 < b.1)) :
    (stableSortByKey l).Pairwise (fun a b => a.2 < b.2 ∨ (a.2 = b.2 ∧ a.1 < b.1)) := by
  induction l with
  | nil => simp [stableSortByKey]
  | cons x xs ih =>
    rcases List.pairwise_cons.mp hl with ⟨hx, hxs⟩
    unfold stableSortByKey
    refine stableInsert_pairwise x _ (ih hxs) ?_
    intro y hy
    exact hx y ((stableSortByKey_perm xs).mem_iff.mp hy)

theorem pairwise_fst_lt_enumFrom {α : Type} (l : List α) :
    ∀ n : Nat, (List.enumFrom n l).Pairwise (fun a b => a.1 < b.1) := by
  induction l with
  | nil => intro n; simp
  | cons x xs ih =>
    intro n
    refine List.pairwise_cons.mpr ⟨?_, ih (n + 1)⟩
    intro b hb
    have := List.le_fst_of_mem_enumFrom hb
    omega

theorem pairwise_fst_lt_enum {α : Type} (l : List α) :
    l.enum.Pairwise (fun a b => a.1 < b.1) :=
  pairwise_fst_lt_enumFrom l 0

theorem pickName_mem (nm : Naming) (p s : PyStr) (h : pickName nm p s ≠ []) :
    pickName nm p s ∈ splitToArray s := by
  unfold pickName at h ⊢
  rcases hgp : getNamePart nm p with - | part
  · rw [hgp] at h
    exact absurd rfl h
  · rw [hgp] at h
    dsimp only at h ⊢
    by_cases hg : (part.type != NamePartType.indexType
        && part.type != NamePartType.realnameType && part.predefinedValues.isEmpty) = true
    · rw [if_pos hg] at h
      exact absurd rfl h
    · rw [if_neg hg] at h ⊢
      cases htype : part.type
      · rw [htype] at h
        dsimp only at h ⊢
        exact scanFirst_mem _ _ h
      · rw [htype] at h
        dsimp only at h ⊢
        exact List.mem_reverse.mp (scanFirst_mem _ _ h)
      · rw [htype] at h
        dsimp only at h ⊢
        exact absurd rfl h
      · rw [htype] at h
        dsimp only at h ⊢
        by_cases hcmp : getNamePartIdx nm strIndexName > getNamePartIdx nm strRealNameName
        · rw [if_pos hcmp] at h ⊢
          exact List.mem_reverse.mp (scanFirst_mem _ _ h)
        · rw [if_neg hcmp] at h ⊢
          exact scanFirst_mem _ _ h
      · rw [htype] at h
        dsimp only at h ⊢
        exact absurd rfl h

theorem ite_ok_exists {c : Prop} [Decidable c] (a b : PyStr) :
    ∃ v, (if c then (Except.ok a : Except PyErr PyStr) else .ok b) = .ok v := by
  by_cases h : c
  · rw [if_pos h]
    exact ⟨a, rfl⟩
  · rw [if_neg h]
    exact ⟨b, rfl⟩

theorem getName_ok (nm : Naming) (p s : PyStr) (part : NamePart)
    (h : getNamePart nm p = some part) : ∃ v, getName nm p s = .ok v := by
  unfold getName
  rw [h]
  dsimp only
  by_cases hf : (pickName nm p s).isEmpty = true
  · rw [if_pos hf]
    exact ⟨[], rfl⟩
  · rw [if_neg hf]
    have hne : pickName nm p s ≠ [] := by simpa [List.isEmpty_iff] using hf
    obtain ⟨k, hk⟩ := Option.isSome_iff_exists.mp
      (listIndex_isSome _ _ (pickName_mem nm p s hne))
    rw [hk]
    dsimp only
    cases part.type
    · exact ite_ok_exists _ _
    · exact ite_ok_exists _ _
    · exact ⟨_, rfl⟩
    · exact ⟨_, rfl⟩
    · exact ⟨_, rfl⟩

theorem getIndexAsDigit_ok_default (s : PyStr) :
    ∃ v, getIndexAsDigit defaultNaming s = .ok v := by
  obtain ⟨w, hw⟩ := getName_ok defaultNaming strIndexName s indexPartDefault getNamePart_defIndex
  unfold getIndexAsDigit
  rw [hw]
  simp only [exceptBindOk, exceptBindOk']
  split
  · exact ⟨_, rfl⟩
  · split
    · exact ⟨_, rfl⟩
    · exact ⟨_, rfl⟩

theorem decorate_eq (nm : Naming) (iname : Nat × PyStr)
    (h : ∃ v, getIndexAsDigit nm iname.2 = .ok v) :
    (do let t ← getIndexAsDigit nm iname.2
        Except.ok (iname.1, match t with | none => (0 : Int) | some v => v))
      = .ok (iname.1, effIndexKey nm iname.2) := by
  obtain ⟨v, hv⟩ := h
  rw [hv]
  simp only [exceptBindOk, exceptBindOk']
  unfold effIndexKey
  rw [hv]
  cases v <;> rfl

theorem sortByIndex_def_eq (names : List PyStr) :
    sortByIndex defaultNaming names
      = .ok ((sortedIndexStructs defaultNaming names).map (fun st => names.getD st.1 [])) := by
  unfold sortByIndex sortedIndexStructs
  by_cases hn : names.isEmpty = true
  · rw [if_pos hn]
    have he : names = [] := by simpa [List.isEmpty_iff] using hn
    subst he
    rfl
  · rw [if_neg hn]
    have hmap := mapM_ok_of_forall
      (fun iname => do
        let t ← getIndexAsDigit defaultNaming iname.2
        Except.ok (iname.1, match t with | none => (0 : Int) | some v => v))
      (fun iname => (iname.1, effIndexKey defaultNaming iname.2))
      names.enum
      (fun a _ => decorate_eq defaultNaming a (getIndexAsDigit_ok_default a.2))
    rw [hmap]
    rfl

/-- Claim C7: `sort_by_index` returns a permutation of the input, ascending in
the parsed index (missing/unparsable counting as 0), and the underlying
decorated sort is stable: among equal keys the original positions stay in
increasing order.  The spec example sorts as stated. -/
theorem claim_C7_sort_by_index :
    (∀ names : List PyStr,
      ∃ out, sortByIndex defaultNaming names = .ok out
        ∧ out.Perm names
        ∧ out = (sortedIndexStructs defaultNaming names).map (fun st => names.getD st.1 [])
        ∧ (sortedIndexStructs defaultNaming names).Pairwise
            (fun a b => a.2 < b.2 ∨ (a.2 = b.2 ∧ a.1 < b.1))
        ∧ out.Pairwise
            (fun a b => effIndexKey defaultNaming a ≤ effIndexKey defaultNaming b))
  ∧ sortByIndex defaultNaming
      [['A','r','m','_','0','3'], ['A','r','m','_','0','1'], ['A','r','m','_','0','2']]
    = .ok [['A','r','m','_','0','1'], ['A','r','m','_','0','2'], ['A','r','m','_','0','3']] := by
  refine ⟨?_, rfl⟩
  intro names
  have hgetD : ∀ p ∈ names.enum, (names.getD p.1 [] : PyStr) = p.2 := by
    intro p hp
    have hg := List.mem_enum_iff_getElem?.mp hp
    simp [List.getD_eq_getElem?_getD, hg]
  have hid : (names.enum.map (fun p => (p.1, effIndexKey defaultNaming p.2))).map
      (fun st => names.getD st.1 []) = names := by
    rw [List.map_map]
    have h1 : names.enum.map
        ((fun st : Nat × Int => names.getD st.1 []) ∘
          (fun p : Nat × PyStr => (p.1, effIndexKey defaultNaming p.2)))
        = names.enum.map Prod.snd :=
      List.map_congr_left (fun p hp => hgetD p hp)
    rw [h1]
    exact List.enumFrom_map_snd 0 names
  have henum : (names.enum.map (fun p => (p.1, effIndexKey defaultNaming p.2))).Pairwise
      (fun a b => a.1 < b.1) := by
    rw [List.pairwise_map]
    exact pairwise_fst_lt_enum names
  have hpairSP := stableSortByKey_pairwise _ henum
  have hperm := stableSortByKey_perm (names.enum.map (fun p => (p.1, effIndexKey defaultNaming p.2)))
  have hkey : ∀ st ∈ sortedIndexStructs defaultNaming names,
      effIndexKey defaultNaming (names.getD st.1 []) = st.2 := by
    intro st hst
    have hst2 : st ∈ names.enum.map (fun p => (p.1, effIndexKey defaultNaming p.2)) :=
      hperm.mem_iff.mp hst
    obtain ⟨p, hp, rfl⟩ := List.mem_map.mp hst2
    rw [hgetD p hp]
  refine ⟨_, sortByIndex_def_eq names, ?_, rfl, hpairSP, ?_⟩
  · have hp2 := List.Perm.map (fun st : Nat × Int => names.getD st.1 []) hperm
    rw [hid] at hp2
    exact hp2
  · rw [List.pairwise_map]
    refine List.Pairwise.imp_of_mem ?_ hpairSP
    intro a b ha hb hab
    rw [hkey a ha, hkey b hb]
    rcases hab with h | ⟨h, -⟩
    · exact le_of_lt h
    · exact le_of_eq h

/-! ### Claims C8/C9 — unknown-part edits -/

theorem getNamePart_defRealName :
    getNamePart defaultNaming strRealNameName = some realNamePartDefault := rfl

theorem getRealName_ok_default (s : PyStr) : ∃ v, getRealName defaultNaming s = .ok v := by
  have hside : ∀ a ∈ [prefixPartDefault, indexPartDefault, suffixPartDefault],
      ∃ v, getName defaultNaming a.name s = .ok v := by
    intro a ha
    have ha' : a = prefixPartDefault ∨ a = indexPartDefault ∨ a = suffixPartDefault := by
      simpa using ha
    rcases ha' with rfl | rfl | rfl
    · exact getName_ok _ _ s _ getNamePart_defPrefix
    · exact getName_ok _ _ s _ getNamePart_defIndex
    · exact getName_ok _ _ s _ getNamePart_defSuffix
  obtain ⟨out, hout, -⟩ := mapM_ok_exists (fun part => getName defaultNaming part.name s)
    [prefixPartDefault, indexPartDefault, suffixPartDefault] hside
  unfold getRealName
  rw [show (defaultNaming.nameParts.filter (fun part => part.type != .realnameType))
      = [prefixPartDefault, indexPartDefault, suffixPartDefault] from rfl]
  rw [hout]
  exact ⟨_, rfl⟩

theorem convertNameToArray_ok_default (s : PyStr) :
    ∃ arr, convertNameToArray defaultNaming s = .ok arr ∧ arr.length = 4 := by
  have hside : ∀ a ∈ defaultNaming.nameParts,
      ∃ v, (if a.name == strRealNameName then Except.ok []
        else getName defaultNaming a.name s) = .ok v := by
    intro a ha
    have ha' : a = prefixPartDefault ∨ a = realNamePartDefault ∨ a = indexPartDefault
        ∨ a = suffixPartDefault := by
      simpa [nameParts_defaultNaming] using ha
    rcases ha' with rfl | rfl | rfl | rfl
    · obtain ⟨v, hv⟩ := getName_ok defaultNaming prefixPartDefault.name s _ getNamePart_defPrefix
      exact ⟨v, by rw [if_neg (by decide)]; exact hv⟩
    · exact ⟨[], by rw [if_pos (by decide)]⟩
    · obtain ⟨v, hv⟩ := getName_ok defaultNaming indexPartDefault.name s _ getNamePart_defIndex
      exact ⟨v, by rw [if_neg (by decide)]; exact hv⟩
    · obtain ⟨v, hv⟩ := getName_ok defaultNaming suffixPartDefault.name s _ getNamePart_defSuffix
      exact ⟨v, by rw [if_neg (by decide)]; exact hv⟩
  obtain ⟨out, hout, hlen⟩ := mapM_ok_exists
    (fun part => if part.name == strRealNameName then Except.ok []
      else getName defaultNaming part.name s)
    defaultNaming.nameParts hside
  obtain ⟨rn, hrn⟩ := getRealName_ok_default s
  refine ⟨out.set 1 rn, ?_, by rw [List.length_set, hlen]; rfl⟩
  unfold convertNameToArray
  rw [hout]
  simp only [exceptBindOk, exceptBindOk', lastIdxOfName_default]
  rw [hrn]
  rfl

theorem pyGetItem_neg_one (arr : List PyStr) (h : arr.length = 4) :
    pyGetItem arr (-1) = .ok (arr.getD 3 []) := by
  rcases arr with - | ⟨a, rest⟩
  · simp only [List.length_nil] at h; omega
  rcases rest with - | ⟨b, rest⟩
  · simp only [List.length_cons, List.length_nil] at h; omega
  rcases rest with - | ⟨c, rest⟩
  · simp only [List.length_cons, List.length_nil] at h; omega
  rcases rest with - | ⟨d, rest⟩
  · simp only [List.length_cons, List.length_nil] at h; omega
  rcases rest with - | ⟨e, rest⟩
  · rfl
  · simp only [List.length_cons, List.length_nil] at h
    omega

theorem pySetItem_neg_one (arr : List PyStr) (h : arr.length = 4) (v : PyStr) :
    pySetItem arr (-1) v = .ok (arr.set 3 v) := by
  rcases arr with - | ⟨a, rest⟩
  · simp only [List.length_nil] at h; omega
  rcases rest with - | ⟨b, rest⟩
  · simp only [List.length_cons, List.length_nil] at h; omega
  rcases rest with - | ⟨c, rest⟩
  · simp only [List.length_cons, List.length_nil] at h; omega
  rcases rest with - | ⟨d, rest⟩
  · simp only [List.length_cons, List.length_nil] at h; omega
  rcases rest with - | ⟨e, rest⟩
  · rfl
  · simp only [List.length_cons, List.length_nil] at h
    omega

/-- Claim C9: with a part name absent from the schema, `replace_name_part` and
`remove_name_part` change no slot — the result is the extracted positional
array rejoined with the detected delimiter and the index padding re-applied at
the default width.  The concrete conjuncts show the re-padding
(`"Pr_Arm_7_Su" → "Pr_Arm_07_Su"`) with every part value kept. -/
theorem claim_C9_unknown_part_frame :
    (∀ (p s v : PyStr), getNamePartIdx defaultNaming p = -1 →
      ∃ arr, convertNameToArray defaultNaming s = .ok arr
        ∧ replaceNamePart defaultNaming p s v
            = setIndexPaddingNum defaultNaming (combineArr arr (getFilteringChar s)) none
        ∧ removeNamePart defaultNaming p s
            = setIndexPaddingNum defaultNaming (combineArr arr (getFilteringChar s)) none)
  ∧ replaceNamePart defaultNaming ['B','o','g','u','s']
      ['P','r','_','A','r','m','_','7','_','S','u'] ['X']
    = .ok ['P','r','_','A','r','m','_','0','7','_','S','u']
  ∧ removeNamePart defaultNaming ['B','o','g','u','s']
      ['P','r','_','A','r','m','_','7','_','S','u']
    = .ok ['P','r','_','A','r','m','_','0','7','_','S','u'] := by
  refine ⟨?_, rfl, rfl⟩
  intro p s v hp
  obtain ⟨arr, harr, -⟩ := convertNameToArray_ok_default s
  refine ⟨arr, harr, ?_, ?_⟩
  · unfold replaceNamePart
    rw [harr]
    simp only [exceptBindOk, exceptBindOk', hp]
    rw [if_neg (by decide : ¬((-1 : Int) ≥ 0))]
  · unfold removeNamePart
    rw [harr]
    simp only [exceptBindOk, exceptBindOk', hp]
    rw [if_neg (by decide : ¬((-1 : Int) ≥ 0))]

/-- Witness for C9 with the unknown part `"Bogus"`. -/
theorem claim_C9_unknown_part_frame_witness :
    ∃ arr, convertNameToArray defaultNaming ['P','r','_','A','r','m'] = .ok arr
      ∧ replaceNamePart defaultNaming ['B','o','g','u','s'] ['P','r','_','A','r','m'] ['X']
          = setIndexPaddingNum defaultNaming
              (combineArr arr (getFilteringChar ['P','r','_','A','r','m'])) none
      ∧ removeNamePart defaultNaming ['B','o','g','u','s'] ['P','r','_','A','r','m']
          = setIndexPaddingNum defaultNaming
              (combineArr arr (getFilteringChar ['P','r','_','A','r','m'])) none :=
  claim_C9_unknown_part_frame.1 ['B','o','g','u','s'] ['P','r','_','A','r','m'] ['X'] rfl

/-- Claim C8 (amended): with a part name absent from the schema, the lookup
yields `-1` and Python's negative indexing attaches the affix to the LAST slot
of the positional array before rejoining (concretely,
`add_prefix("Bogus", "Pr_Arm_01_Su", "X") = "Pr_Arm_01_XSu"`); the result is
not in general `s` unchanged, but it can be when the affix consists only of
delimiter characters (see the counterexample). -/
theorem claim_C8_affix_unknown_part_amended :
    (∀ (p s a : PyStr), a ≠ [] → getNamePartIdx defaultNaming p = -1 →
      ∃ arr, convertNameToArray defaultNaming s = .ok arr ∧ arr.length = 4
        ∧ addPrefixToNamePart defaultNaming p s a
            = .ok (combineArr (arr.set 3 (a ++ arr.getD 3 [])) (getFilteringChar s))
        ∧ addSuffixToNamePart defaultNaming p s a
            = .ok (combineArr (arr.set 3 (arr.getD 3 [] ++ a)) (getFilteringChar s)))
  ∧ addPrefixToNamePart defaultNaming ['B','o','g','u','s']
      ['P','r','_','A','r','m','_','0','1','_','S','u'] ['X']
    = .ok ['P','r','_','A','r','m','_','0','1','_','X','S','u']
  ∧ addSuffixToNamePart defaultNaming ['B','o','g','u','s']
      ['P','r','_','A','r','m','_','0','1','_','S','u'] ['X']
    = .ok ['P','r','_','A','r','m','_','0','1','_','S','u','X'] := by
  refine ⟨?_, rfl, rfl⟩
  intro p s a ha hp
  obtain ⟨arr, harr, hlen⟩ := convertNameToArray_ok_default s
  have hae : ¬(a.isEmpty = true) := by simpa [List.isEmpty_iff] using ha
  refine ⟨arr, harr, hlen, ?_, ?_⟩
  · unfold addPrefixToNamePart
    rw [if_neg hae, harr]
    simp only [exceptBindOk, exceptBindOk', hp]
    rw [pyGetItem_neg_one arr hlen]
    simp only [exceptBindOk, exceptBindOk']
    rw [pySetItem_neg_one arr hlen]
    rfl
  · unfold addSuffixToNamePart
    rw [if_neg hae, harr]
    simp only [exceptBindOk, exceptBindOk', hp]
    rw [pyGetItem_neg_one arr hlen]
    simp only [exceptBindOk, exceptBindOk']
    rw [pySetItem_neg_one arr hlen]
    rfl

/-- Witness for the amended C8 with the unknown part `"Bogus"` and affix `"X"`. -/
theorem claim_C8_affix_unknown_part_amended_witness :
    ∃ arr, convertNameToArray defaultNaming ['P','r','_','A','r','m'] = .ok arr
      ∧ arr.length = 4
      ∧ addPrefixToNamePart defaultNaming ['B','o','g','u','s'] ['P','r','_','A','r','m'] ['X']
          = .ok (combineArr (arr.set 3 (['X'] ++ arr.getD 3 []))
              (getFilteringChar ['P','r','_','A','r','m']))
      ∧ addSuffixToNamePart defaultNaming ['B','o','g','u','s'] ['P','r','_','A','r','m'] ['X']
          = .ok (combineArr (arr.set 3 (arr.getD 3 [] ++ ['X']))
              (getFilteringChar ['P','r','_','A','r','m'])) :=
  claim_C8_affix_unknown_part_amended.1 ['B','o','g','u','s'] ['P','r','_','A','r','m'] ['X']
    (by decide) rfl

/-! ### Claim C2 — totality (code_bug) -/

/-- Claim C2: the spec says every public operation of `NamePart` and `Naming`
is total and never raises.  The code raises in (at least) three of the places
the claim names: constructing any `PREFIX` part raises `TypeError` inside
`_update_weights` (`for i in num_values:` iterates over an `int`);
`get_value_by_weight` with a weight not in the list raises `ValueError` from
`list.index`; and `get_name` with a part name absent from the schema raises
`AttributeError` (`None.get_type()`). -/
theorem claim_C2_totality_violations :
    mkNamePart strPrefixName .prefixType [strPr] false = .error .typeError
  ∧ getValueByWeight sidePart 3 = .error .valueError
  ∧ getName defaultNaming ['B','o','g','u','s'] ['P','r','_','A','r','m'] =
      .error .attributeError :=
  ⟨rfl, rfl, rfl⟩

/-! ### Claim C3 — weight monotonicity (code_bug) -/

/-- Claim C3: the spec says weights are recomputed to `5, 10, …, 5n` after
every addition/removal.  The recomputation in the source raises `TypeError`
instead (both at construction and from `add_predefined_value`); the sequence
the spec/docstring describes (`specUpdateWeights`) is strictly increasing in
steps of exactly 5. -/
theorem claim_C3_weight_monotonicity :
    updateWeights .prefixType [strPr] = .error .typeError
  ∧ addPredefinedValue sidePart ['M'] = .error .typeError
  ∧ ∀ values : List PyStr,
      (specUpdateWeights values).length = values.length
    ∧ ∀ i, i + 1 < values.length →
        (specUpdateWeights values).getD i 0 < (specUpdateWeights values).getD (i + 1) 0
      ∧ (specUpdateWeights values).getD (i + 1) 0 = (specUpdateWeights values).getD i 0 + 5 := by
  refine ⟨rfl, rfl, fun values =>
    ⟨by simp only [specUpdateWeights, List.length_map, List.length_range], fun i hi => ?_⟩⟩
  have h1 : i < values.length := Nat.lt_of_succ_lt hi
  have e1 : (specUpdateWeights values).getD i 0 = ((5 * (i + 1) : Nat) : Int) := by
    rw [specUpdateWeights, List.getD_eq_getElem?_getD, List.getElem?_map,
      List.getElem?_range h1]
    rfl
  have e2 : (specUpdateWeights values).getD (i + 1) 0 = ((5 * (i + 2) : Nat) : Int) := by
    rw [specUpdateWeights, List.getD_eq_getElem?_getD, List.getElem?_map,
      List.getElem?_range hi]
    rfl
  rw [e1, e2]
  omega

/-- Witness for C3: the spec-documented weight sequence for a three-value part,
with the two monotonicity facts discharged at `i = 0`. -/
theorem claim_C3_weight_monotonicity_witness :
    (specUpdateWeights [strL, strR, ['M']]).getD 0 0 <
      (specUpdateWeights [strL, strR, ['M']]).getD 1 0
  ∧ (specUpdateWeights [strL, strR, ['M']]).getD 1 0 =
      (specUpdateWeights [strL, strR, ['M']]).getD 0 0 + 5 :=
  (claim_C3_weight_monotonicity.2.2 [strL, strR, ['M']]).2 0 (by decide)

/-! ### Claim C6 — validate_value (confirmed) -/

/-- Claim C6: `validate_value` is digit-check for INDEX, membership for
PREFIX/SUFFIX with a non-empty value set, permissively true for PREFIX/SUFFIX
with an empty value set, and true for REALNAME/UNDEFINED. -/
theorem claim_C6_validate_value (p : NamePart) (v : PyStr) :
    (p.type = .indexType → (validateValue p v = true ↔ pyIsdigit v = true))
  ∧ ((p.type = .prefixType ∨ p.type = .suffixType) → p.predefinedValues ≠ [] →
      (validateValue p v = true ↔ v ∈ p.predefinedValues))
  ∧ ((p.type = .prefixType ∨ p.type = .suffixType) → p.predefinedValues = [] →
      validateValue p v = true)
  ∧ ((p.type = .realnameType ∨ p.type = .undefinedType) → validateValue p v = true) := by
  obtain ⟨nm, t, vals, ws, d⟩ := p
  cases t <;> cases vals <;>
    simp [validateValue, List.contains, List.elem_iff]

/-- Witness for C6, exercising all four components on concrete parts. -/
theorem claim_C6_validate_value_witness :
    (validateValue indexPartDefault ['0','7'] = true ↔ pyIsdigit ['0','7'] = true)
  ∧ (validateValue sidePart strL = true ↔ strL ∈ sidePart.predefinedValues)
  ∧ validateValue ⟨['E'], .suffixType, [], [], false⟩ ['x'] = true
  ∧ validateValue realNamePartDefault ['x'] = true :=
  ⟨(claim_C6_validate_value indexPartDefault ['0','7']).1 rfl,
   (claim_C6_validate_value sidePart strL).2.1 (Or.inl rfl) (by decide),
   (claim_C6_validate_value ⟨['E'], .suffixType, [], [], false⟩ ['x']).2.2.1 (Or.inr rfl) rfl,
   (claim_C6_validate_value realNamePartDefault ['x']).2.2.2 (Or.inl rfl)⟩

/-! ### Concrete counterexamples for the corrected claims -/

/-- Counterexample to claim C1 as stated: the mapping
`{Prefix: "Pr", RealName: "Su", Index: "07", Suffix: "Su"}` assigns every part
a value valid for it (REALNAME accepts any string), yet decomposing the
combined name `"Pr Su 07 Su"` yields `Suffix = ""` and `RealName = "Su Su"`,
which is not the original mapping even up to index padding. -/
theorem claim_C1_counterexample :
    (validateValue prefixPartDefault strPr = true
     ∧ validateValue realNamePartDefault strSu = true
     ∧ validateValue indexPartDefault ['0','7'] = true
     ∧ validateValue suffixPartDefault strSu = true)
  ∧ (combine defaultNaming
       [(strPrefixName, strPr), (strRealNameName, strSu),
        (strIndexName, ['0','7']), (strSuffixName, strSu)] [' ']).bind
      (convertToDictionary defaultNaming)
    = .ok [(strPrefixName, strPr), (strIndexName, ['0','7']),
           (strSuffixName, []), (strRealNameName, ['S','u',' ','S','u'])]
  ∧ ([] : PyStr) ≠ strSu :=
  ⟨⟨rfl, rfl, rfl, rfl⟩, rfl, by decide⟩

/-- Counterexample to claim C4 as stated: in `"Pr_Arm_0007_Su"` the index token
has width 4 and value 7; increasing by 1 gives value 8 — which fits in 4
digits — but the resulting token is `"08"` of width 2, because
`increase_index` re-applies the default padding at the end. -/
theorem claim_C4_counterexample :
    increaseIndex defaultNaming ['P','r','_','A','r','m','_','0','0','0','7','_','S','u'] 1
      = .ok ['P','r','_','A','r','m','_','0','8','_','S','u']
  ∧ getIndexAsDigit defaultNaming ['P','r','_','A','r','m','_','0','8','_','S','u']
      = .ok (some 8)
  ∧ (['0','8'] : PyStr).length ≠ (['0','0','0','7'] : PyStr).length :=
  ⟨rfl, rfl, by decide⟩

/-- Counterexample to claim C5 as stated: over the schema
`[Side{L,R}, RealName, Index]` (direction-flagged, documented weights), the
name `"01_Arm"` is not restored by a double mirror — both applications
canonicalize it to `"Arm_01"`. -/
theorem claim_C5_counterexample :
    sidePart.isDirection = true
  ∧ sidePart.predefinedValues = [strL, strR]
  ∧ (genMirroringName sideNaming ['0','1','_','A','r','m']).bind
      (genMirroringName sideNaming)
    = .ok ['A','r','m','_','0','1']
  ∧ (['A','r','m','_','0','1'] : PyStr) ≠ ['0','1','_','A','r','m'] :=
  ⟨rfl, rfl, rfl, by decide⟩

/-- Counterexample to claim C8 as stated: with the unknown part `"Bogus"` and
the delimiter-only affix `"_"`, `add_prefix_to_name_part` returns
`"Pr_Arm__"` unchanged (the affix lands in the empty last slot and the rejoin
reproduces the original spelling). -/
theorem claim_C8_counterexample :
    getNamePartIdx defaultNaming ['B','o','g','u','s'] = -1
  ∧ (['_'] : PyStr) ≠ []
  ∧ addPrefixToNamePart defaultNaming ['B','o','g','u','s']
      ['P','r','_','A','r','m','_','_'] ['_']
    = .ok ['P','r','_','A','r','m','_','_'] :=
  ⟨rfl, by decide, rfl⟩

/-- Counterexample to claim C10 as stated: a schema lacking the literal part
name `"RealName"` but containing `"Index"` does not scan left-to-right — the
`"Index"` lookup is `0`, not `-1`, and `0 > -1` selects the right-to-left
scan, so the INDEX pick on `"01_Arm_02"` is `"02"`, not the leftmost digit
token `"01"`. -/
theorem claim_C10_counterexample :
    noRealNameNaming.nameParts.all (fun q => q.name != strRealNameName) = true
  ∧ getNamePartIdx noRealNameNaming strIndexName = 0
  ∧ pickName noRealNameNaming strIndexName ['0','1','_','A','r','m','_','0','2'] = ['0','2']
  ∧ scanFirst pyIsdigit (splitToArray ['0','1','_','A','r','m','_','0','2']) = ['0','1']
  ∧ (['0','2'] : PyStr) ≠ ['0','1'] :=
  ⟨rfl, rfl, rfl, rfl, by decide⟩

theorem getNamePartIdxAux_eq_neg_one (p : PyStr) (l : List NamePart) (i : Nat)
    (h : ∀ q ∈ l, q.name ≠ p) : getNamePartIdxAux p l i = -1 := by
  induction l generalizing i with
  | nil => rfl
  | cons q rest ih =>
    have hq : (q.name == p) = false := beq_eq_false_iff_ne.mpr (h q (by simp))
    simp only [getNamePartIdxAux, hq, Bool.false_eq_true, if_false]
    exact ih _ (fun r hr => h r (by simp [hr]))

theorem getNamePartIdx_eq_neg_one (nm : Naming) (p : PyStr)
    (h : ∀ q ∈ nm.nameParts, q.name ≠ p) : getNamePartIdx nm p = -1 :=
  getNamePartIdxAux_eq_neg_one p nm.nameParts 0 h

/-- Claim C10 (amended): `pick_name` for an INDEX-typed part dispatches the
scan direction on the literal part names `"Index"` and `"RealName"` — it
scans right-to-left iff the schema index of the part named `"Index"` is
strictly greater than that of the part named `"RealName"` (first conjunct).
The left-to-right scan is guaranteed only when BOTH literal names are absent
(both lookups `-1`, second conjunct) — not, as claimed, when either one is
absent: see the counterexample.  Concretely, on the schema whose INDEX part
is named `"Num"`, `pick_name("Num", "01_Arm_02") = "01"`. -/
theorem claim_C10_index_scan_dispatch :
    (∀ (nm : Naming) (p s : PyStr) (part : NamePart),
      getNamePart nm p = some part → part.type = .indexType →
      pickName nm p s =
        ((if getNamePartIdx nm strIndexName > getNamePartIdx nm strRealNameName then
            (splitToArray s).reverse
          else splitToArray s).find? pyIsdigit).getD [])
  ∧ (∀ (nm : Naming) (p s : PyStr) (part : NamePart),
      getNamePart nm p = some part → part.type = .indexType →
      (∀ q ∈ nm.nameParts, q.name ≠ strIndexName) →
      (∀ q ∈ nm.nameParts, q.name ≠ strRealNameName) →
      pickName nm p s = ((splitToArray s).find? pyIsdigit).getD [])
  ∧ pickName numNaming ['N','u','m'] ['0','1','_','A','r','m','_','0','2'] = ['0','1'] := by
  have hmain : ∀ (nm : Naming) (p s : PyStr) (part : NamePart),
      getNamePart nm p = some part → part.type = .indexType →
      pickName nm p s =
        ((if getNamePartIdx nm strIndexName > getNamePartIdx nm strRealNameName then
            (splitToArray s).reverse
          else splitToArray s).find? pyIsdigit).getD [] := by
    intro nm p s part hgp htype
    unfold pickName
    rw [hgp]
    dsimp only
    have h1 : (part.type != NamePartType.indexType) = false := by rw [htype]; rfl
    rw [h1]
    simp only [Bool.false_and, Bool.false_eq_true, if_false]
    rw [htype]
    dsimp only
    by_cases hc : getNamePartIdx nm strIndexName > getNamePartIdx nm strRealNameName
    · rw [if_pos hc, if_pos hc, scanFirst_eq_find]
    · rw [if_neg hc, if_neg hc, scanFirst_eq_find]
  refine ⟨hmain, ?_, rfl⟩
  intro nm p s part hgp htype hIdx hReal
  rw [hmain nm p s part hgp htype, getNamePartIdx_eq_neg_one nm _ hIdx,
    getNamePartIdx_eq_neg_one nm _ hReal]
  rw [if_neg (by decide : ¬((-1 : Int) > -1))]

/-- Witness for the amended C10: the schema `numNaming` lacks both literal
names, so the INDEX pick on `"01_Arm_02"` is the left-to-right first digit
token. -/
theorem claim_C10_index_scan_dispatch_witness :
    pickName numNaming ['N','u','m'] ['0','1','_','A','r','m','_','0','2']
      = ((splitToArray ['0','1','_','A','r','m','_','0','2']).find? pyIsdigit).getD [] :=
  claim_C10_index_scan_dispatch.2.1 numNaming ['N','u','m']
    ['0','1','_','A','r','m','_','0','2']
    ⟨['N','u','m'], .indexType, [], [], false⟩ rfl rfl (by decide) (by decide)

end PyJalLib
